import Mathlib

/-!
Verification development for the hardware-isolation ("guard") record manager
(`src/hw_isolation_record/manager.cpp` of openpower-hw-isolation).

The C++ `Manager` is embedded shallowly:

* `GuardRecord` models `openpower_guard::GuardRecord` (`recordId`, `targetId`
  as its raw-byte entity path, `errType`, `elogId`, plus an `ephemeral` flag
  standing for the GARD_Reconfig / GARD_Sticky_deconfig kinds that
  `openpower_guard::getAll(true)` excludes).
* `Entry` models `hw_isolation::record::entry::Entry`'s mutable state
  (severity, resolved flag, association list, entity path, creation
  timestamp) keyed by its record id.
* `ManagerState` carries the members of `Manager` that the claims are about:
  `_isolatedHardwares` (a `std::map` modelled as a key-sorted association
  list), `_persistedEcoCores`, the guard-store contents, and the
  `_timerObjs` queue length.
* `Env` packages the external collaborators (catalog, error-log subsystem,
  guard-type mapping, D-Bus policy sources, clock); they are deterministic
  functions, matching the single-threaded dispatch model of the service.
* Every state-changing operation also returns a list of `Effect`s recording
  the externally observable actions (entry resolution, entry creation,
  timestamp refresh, consistency-violation logging, persistence writes), so
  that claims about "what ran" are claims about the effect trace.

Machine integers: `recordId` is a 32-bit value; the only place the width
matters is the sentinel constant `0xFFFFFFFF` and the `static_cast<uint32_t>`
in `getEID`, which is modelled with an explicit `% 2^32`.
-/

namespace HwIsolation

/-- Raw devtree entity path bytes (`devtree::DevTreePhysPath` /
`convertEntityPathIntoRawData` output).  `openpower_guard::EntityPath` and the
raw data are interconvertible in the source; the model identifies them. -/
abbrev EntityPath := List Nat

/-- `xyz.openbmc_project.HardwareIsolation.Entry.Type`
(= `entry::EntrySeverity`). -/
inductive EntrySeverity where
  | critical
  | warning
  | manual
deriving DecidableEq, Repr

/-- One guard record as enumerated from the Guard Store
(`openpower_guard::GuardRecord`).  `ephemeral` marks the record kinds
(GARD_Reconfig, GARD_Sticky_deconfig) that `getAll(true)` excludes. -/
structure GuardRecord where
  recordId : Nat
  targetId : EntityPath
  errType : Nat
  elogId : Nat
  ephemeral : Bool
deriving DecidableEq, Repr

/-- A forward/reverse/target D-Bus association triple
(`type::AssociationDef` element). -/
abbrev Association := String × String × String

/-- The state of one `entry::Entry` D-Bus object owned by the manager. -/
structure Entry where
  recordId : Nat
  severity : EntrySeverity
  resolved : Bool
  associations : List Association
  entityPath : EntityPath
  elapsed : Nat
deriving DecidableEq, Repr

/-- Externally observable actions of the manager, in program order. -/
inductive Effect where
  /-- `entry->resolveEntry(clearRecord)` actually resolved (and destroyed)
  the entry. -/
  | resolvedEntry (recordId : Nat) (clearRecord : Bool)
  /-- `Manager::createEntry` materialized a new `entry::Entry`. -/
  | createdEntry (recordId : Nat)
  /-- An existing entry's creation timestamp was refreshed
  (`elapsed(timeStamp)` under `if (updated)`). -/
  | refreshedTimestamp (recordId : Nat)
  /-- The "More than one valid records exist for the same hardware" error
  log of `Manager::handleHostIsolatedHardwares`. -/
  | consistencyViolation (entityPath : EntityPath)
  /-- `Manager::serialize()` ran (eco-core set persistence). -/
  | serializedEcoCores
  /-- `entry->serialize()` ran for one entry. -/
  | serializedEntry (recordId : Nat)
  /-- An error was logged and the surrounding step was skipped. -/
  | logError
deriving DecidableEq, Repr

/-- External collaborators of `Manager`, as deterministic interfaces.
All calls happen synchronously inside one event-loop dispatch turn. -/
structure Env where
  /-- `IsolatableHWs::getInventoryPath(physPath, ecoCore&)`: the bool is the
  in/out eco-core flag; the result carries the inventory path together with
  the flag's value after the call. -/
  getInventoryPath : EntityPath → Bool → Option (String × Bool)
  /-- `IsolatableHWs::getPhysicalPath(inventoryPath)`. -/
  getPhysicalPath : String → Option EntityPath
  /-- `utils::getBMCLogPath(bus, eid)`. -/
  getBMCLogPath : Nat → Option String
  /-- `entry::utils::getEntrySeverityType(GardType)`. -/
  getEntrySeverityType : Nat → Option EntrySeverity
  /-- `entry::utils::getGuardType(severity)`. -/
  getGuardType : EntrySeverity → Option Nat
  /-- Whether constructing the `entry::Entry` D-Bus object for this record
  id succeeds (the `catch` in `Manager::createEntry` fires when false). -/
  entryCtorOk : Nat → Bool
  /-- `std::time(nullptr)`. -/
  time : Nat
  /-- `utils::isHwIosolationSettingEnabled(bus)`. -/
  settingEnabled : Bool
  /-- Whether the chassis `CurrentPowerState` is `Off`. -/
  powerStateOff : Bool
  /-- The record id that `openpower_guard::create` allocates for the next
  durable create. -/
  newRecordId : Nat
  /-- `utils::getDBusServiceName(bus, LoggingObjectPath, LoggingInterface)`;
  `Except.error` stands for a thrown `SdBusError`. -/
  loggingService : Except Unit String
  /-- The `GetPELIdFromBMCLogId` D-Bus method; `Except.error` stands for a
  thrown `SdBusError`. -/
  getPELIdFromBMCLogId : Nat → Except Unit Nat

/-- The manager members the claims are about. -/
structure ManagerState where
  /-- `_isolatedHardwares : std::map<EntryRecordId, unique_ptr<Entry>>`,
  as a key-sorted association list. -/
  entries : List (Nat × Entry)
  /-- `_persistedEcoCores : std::set<DevTreePhysPath>` (membership list). -/
  ecoCores : List EntityPath
  /-- The Guard Store's current records (external persistent store). -/
  store : List GuardRecord
  /-- Length of the `_timerObjs` queue of pending debounce timers. -/
  timers : Nat
deriving DecidableEq, Repr

/-! ### `std::map` / `std::set` primitives -/

/-- `map.find(k)` on the association list. -/
def mapFind? (k : Nat) : List (Nat × Entry) → Option Entry
  | [] => none
  | (k', v) :: rest => if k = k' then some v else mapFind? k rest

/-- `std::map::insert` — keeps keys sorted and does *not* overwrite an
existing key. -/
def mapInsert (k : Nat) (v : Entry) : List (Nat × Entry) → List (Nat × Entry)
  | [] => [(k, v)]
  | (k', v') :: rest =>
    if k < k' then (k, v) :: (k', v') :: rest
    else if k = k' then (k', v') :: rest
    else (k', v') :: mapInsert k v rest

/-- In-place mutation of the entry stored under key `k` (what the C++ code
does through the iterator). -/
def mapSet (k : Nat) (v : Entry) : List (Nat × Entry) → List (Nat × Entry)
  | [] => []
  | (k', v') :: rest =>
    if k = k' then (k', v) :: rest else (k', v') :: mapSet k v rest

/-- `std::map::erase(k)`. -/
def mapErase (k : Nat) (l : List (Nat × Entry)) : List (Nat × Entry) :=
  l.filter (fun p => decide (p.1 ≠ k))

/-- `std::set::emplace` on the eco-core path set. -/
def setEmplace (p : EntityPath) (s : List EntityPath) : List EntityPath :=
  if p ∈ s then s else s ++ [p]

/-- `std::set::erase` on the eco-core path set. -/
def setErase (p : EntityPath) (s : List EntityPath) : List EntityPath :=
  s.filter (fun q => decide (q ≠ p))

/-! ### Guard Store interface (external; spec §6) -/

/-- `openpower_guard::getAll(excludeEphemeral)` over the store contents. -/
def getAll (excludeEphemeral : Bool) (store : List GuardRecord) : List GuardRecord :=
  if excludeEphemeral then store.filter (fun r => !r.ephemeral) else store

/-- `openpower_guard::clear(recordId)`: the durable record with that id is
removed from the store. -/
def storeClear (recordId : Nat) (store : List GuardRecord) : List GuardRecord :=
  store.filter (fun r => decide (r.recordId ≠ recordId))

/-- `openpower_guard::create(entityPath, eId, gardType)`: allocates the next
record id (`env.newRecordId`) for a fresh non-ephemeral record. -/
def storeCreate (env : Env) (path : EntityPath) (eId : Nat) (gardType : Nat)
    (store : List GuardRecord) : GuardRecord × List GuardRecord :=
  let r : GuardRecord :=
    { recordId := env.newRecordId, targetId := path, errType := gardType,
      elogId := eId, ephemeral := false }
  (r, store ++ [r])

/-! ### Manager member functions (from `manager.cpp`) -/

namespace Manager

/-- `Manager::isValidRecord` (manager.cpp:460): a record id is valid unless
it is the `0xFFFFFFFF` sentinel. -/
def isValidRecord (recordId : Nat) : Bool :=
  decide (recordId ≠ 0xFFFFFFFF)

/-- `HW_ISOLATION_ENTRY_OBJPATH "/" recordId` (manager.cpp:161). -/
def entryObjPath (recordId : Nat) : String :=
  "/xyz/openbmc_project/hardware_isolation/entry/" ++ toString recordId

/-- The association list built for an entry (manager.cpp:168-181 and
229-242): always the `isolated_hw` association, plus the
`isolated_hw_errorlog` association when the error-log path is nonempty. -/
def buildAssociations (isolatedHardware bmcErrorLog : String) : List Association :=
  let base := [("isolated_hw", "isolated_hw_entry", isolatedHardware)]
  if bmcErrorLog ≠ "" then
    base ++ [("isolated_hw_errorlog", "isolated_hw_entry", bmcErrorLog)]
  else base

/-- `Manager::updateEcoCoresList` (manager.cpp:109): emplace or erase the
path, then `serialize()`. -/
def updateEcoCoresList (ecoCore : Bool) (path : EntityPath) (st : ManagerState) :
    ManagerState × List Effect :=
  let cores := if ecoCore then setEmplace path st.ecoCores else setErase path st.ecoCores
  ({ st with ecoCores := cores }, [Effect.serializedEcoCores])

/-- `Manager::eraseEntry` (manager.cpp:418): if the id is mapped, drop its
path from the eco-core set (serializing), then erase the map entry. -/
def eraseEntry (k : Nat) (st : ManagerState) : ManagerState × List Effect :=
  match mapFind? k st.entries with
  | some e =>
    let r := updateEcoCoresList false e.entityPath st
    ({ r.1 with entries := mapErase k r.1.entries }, r.2)
  | none => ({ st with entries := mapErase k st.entries }, [])

end Manager

/-- Modelled from the spec: `entry::Entry::resolveEntry(clearRecord)`
(entry.cpp is not under `src/`; spec §4.4 and §3).  Idempotent: a no-op on an
already-resolved entry.  Otherwise it optionally clears the underlying guard
record, marks the entry resolved, and the entry is destroyed
(`Manager::eraseEntry`, which also drops its eco-core membership). -/
def Entry.resolveEntry (clearRecord : Bool) (k : Nat) (st : ManagerState) :
    ManagerState × List Effect :=
  match mapFind? k st.entries with
  | none => (st, [])
  | some e =>
    if e.resolved then (st, [])
    else
      let st₁ :=
        if clearRecord then { st with store := storeClear k st.store } else st
      let r := Manager.eraseEntry k st₁
      (r.1, Effect.resolvedEntry k clearRecord :: r.2)

namespace Manager

/-- `Manager::createEntry` (manager.cpp:153): build the associations,
construct the `entry::Entry` and insert it.  On a construction exception the
`catch` block optionally performs the compensating `openpower_guard::clear`
(when `deleteRecord`) and the function returns `std::nullopt`. -/
def createEntry (env : Env) (recordId : Nat) (resolved : Bool)
    (severity : EntrySeverity) (isolatedHardware bmcErrorLog : String)
    (deleteRecord : Bool) (entityPath : EntityPath) (st : ManagerState) :
    Option String × ManagerState × List Effect :=
  if env.entryCtorOk recordId then
    let assoc := buildAssociations isolatedHardware bmcErrorLog
    let e : Entry :=
      { recordId := recordId, severity := severity, resolved := resolved,
        associations := assoc, entityPath := entityPath, elapsed := env.time }
    (some (entryObjPath recordId),
      { st with entries := mapInsert recordId e st.entries },
      [Effect.createdEntry recordId])
  else if deleteRecord then
    (none, { st with store := storeClear recordId st.store }, [Effect.logError])
  else
    (none, st, [Effect.logError])

/-- The severity/association write-back shared by `Manager::updateEntry`
(manager.cpp:246-265) and `Manager::updateEntryForRecord`
(manager.cpp:642-663): assign severity and associations when they differ
(tracking `updated`) and refresh the creation timestamp if anything
changed.  Returns the written-back entry together with `updated`. -/
def applyEntryUpdate (env : Env) (severity : EntrySeverity)
    (assoc : List Association) (e : Entry) : Entry × Bool :=
  let updated₁ := decide (e.severity ≠ severity)
  let e₁ := if updated₁ then { e with severity := severity } else e
  let updated := updated₁ || decide (e₁.associations ≠ assoc)
  let e₂ := if decide (e₁.associations ≠ assoc) then { e₁ with associations := assoc } else e₁
  let e₃ := if updated then { e₂ with elapsed := env.time } else e₂
  (e₃, updated)

/-- `Manager::updateEntry` (manager.cpp:207): find the entry whose entity
path *and* record id both match; if none, report `(false, "")`.  Otherwise
write severity/associations when they differ, refresh the timestamp if
anything changed, and serialize the entry. -/
def updateEntry (env : Env) (recordId : Nat) (severity : EntrySeverity)
    (isolatedHwDbusObjPath bmcErrorLog : String) (entityPath : EntityPath)
    (st : ManagerState) : (Bool × String) × ManagerState × List Effect :=
  match st.entries.find? (fun p =>
      decide (p.2.entityPath = entityPath ∧ p.2.recordId = recordId)) with
  | none => ((false, ""), st, [])
  | some (k, e) =>
    let assoc := buildAssociations isolatedHwDbusObjPath bmcErrorLog
    let r := applyEntryUpdate env severity assoc e
    let fx := if r.2 then [Effect.refreshedTimestamp k] else []
    ((true, entryObjPath k),
      { st with entries := mapSet k r.1 st.entries },
      fx ++ [Effect.serializedEntry k])

/-- `Manager::createEntryForRecord` (manager.cpp:470): probe persisted
eco-core membership (only on the restore path), resolve the inventory path
(skip on failure), record the eco-core flag, resolve the BMC error-log path
(skip on failure unless restoring, where it proceeds with an empty path),
map the gard type to a severity (skip on failure), then `createEntry` with
`deleteRecord = false`. -/
def createEntryForRecord (env : Env) (record : GuardRecord) (isRestorePath : Bool)
    (st : ManagerState) : ManagerState × List Effect :=
  let path := record.targetId
  let resolved := decide (record.recordId = 0xFFFFFFFF)
  let ecoCoreIn := decide (path ∈ st.ecoCores) && isRestorePath
  match env.getInventoryPath path ecoCoreIn with
  | none => (st, [Effect.logError])
  | some (invPath, ecoCore) =>
    let r₁ := updateEcoCoresList ecoCore path st
    let bmcLogPath := env.getBMCLogPath record.elogId
    if bmcLogPath.isNone && !isRestorePath then (r₁.1, r₁.2 ++ [Effect.logError])
    else
      let strBmcErrorLogPath := bmcLogPath.getD ""
      match env.getEntrySeverityType record.errType with
      | none => (r₁.1, r₁.2 ++ [Effect.logError])
      | some sev =>
        let r₂ :=
          createEntry env record.recordId resolved sev invPath strBmcErrorLogPath
            false path r₁.1
        (r₂.2.1, r₁.2 ++ r₂.2.2)

/-- `Manager::updateEntryForRecord` (manager.cpp:568): resolve the inventory
path with `ecoCore = false` (skip on failure), record the eco-core flag,
resolve the BMC error-log path (skip on failure), map the gard type to a
severity (skip on failure), rebuild the associations, write
severity/associations when they differ, refresh the timestamp if anything
changed, and serialize the entry. -/
def updateEntryForRecord (env : Env) (record : GuardRecord) (k : Nat)
    (st : ManagerState) : ManagerState × List Effect :=
  match mapFind? k st.entries with
  | none => (st, [])
  | some e =>
    let path := record.targetId
    match env.getInventoryPath path false with
    | none => (st, [Effect.logError])
    | some (invPath, ecoCore) =>
      let r₁ := updateEcoCoresList ecoCore path st
      match env.getBMCLogPath record.elogId with
      | none => (r₁.1, r₁.2 ++ [Effect.logError])
      | some bmcPath =>
        match env.getEntrySeverityType record.errType with
        | none => (r₁.1, r₁.2 ++ [Effect.logError])
        | some sev =>
          let assoc := buildAssociations invPath bmcPath
          let r := applyEntryUpdate env sev assoc e
          let fx₂ := if r.2 then [Effect.refreshedTimestamp k] else []
          ({ r₁.1 with entries := mapSet k r.1 r₁.1.entries },
            r₁.2 ++ fx₂ ++ [Effect.serializedEntry k])

/-- The per-entry diff of `Manager::handleHostIsolatedHardwares`
(manager.cpp:803-850) for the entry under key `k`: no record with its entity
path, or only sentinel records → resolve (without clearing); exactly one
valid record → update from it; several valid records → log the consistency
violation and leave the entry untouched. -/
def reconcileOne (env : Env) (records : List GuardRecord) (k : Nat)
    (st : ManagerState) : ManagerState × List Effect :=
  match mapFind? k st.entries with
  | none => (st, [])
  | some e =>
    let entryRecords := records.filter (fun r => decide (e.entityPath = r.targetId))
    match entryRecords.filter (fun r => isValidRecord r.recordId), entryRecords with
    | _, [] => Entry.resolveEntry false k st
    | [], _ :: _ => Entry.resolveEntry false k st
    | [r], _ :: _ => updateEntryForRecord env r k st
    | _ :: _ :: _, _ :: _ => (st, [Effect.consistencyViolation e.entityPath])

/-- The entry loop of `Manager::handleHostIsolatedHardwares` over a snapshot
of the map's keys (the C++ loop pre-computes the next iterator, so erasing
the current entry does not disturb the traversal). -/
def reconcileEntries (env : Env) (records : List GuardRecord) :
    List Nat → ManagerState → ManagerState × List Effect
  | [], st => (st, [])
  | k :: ks, st =>
    let r₁ := reconcileOne env records k st
    let r₂ := reconcileEntries env records ks r₁.1
    (r₂.1, r₁.2 ++ r₂.2)

/-- The `createEntryIfNotExists` lambda of `handleHostIsolatedHardwares`
(manager.cpp:854): create an entry for a valid record only when no existing
entry carries the record's entity path. -/
def createEntryIfNotExists (env : Env) (record : GuardRecord) (st : ManagerState) :
    ManagerState × List Effect :=
  if st.entries.any (fun p => decide (record.targetId = p.2.entityPath)) then (st, [])
  else createEntryForRecord env record false st

/-- `std::ranges::for_each(validRecords, createEntryIfNotExists)`. -/
def createEntriesForRecords (env : Env) :
    List GuardRecord → ManagerState → ManagerState × List Effect
  | [], st => (st, [])
  | r :: rs, st =>
    let r₁ := createEntryIfNotExists env r st
    let r₂ := createEntriesForRecords env rs r₁.1
    (r₂.1, r₁.2 ++ r₂.2)

/-- The eco-core sweep of `Manager::cleanupPersistedEcoCores`
(manager.cpp:678-697) over a snapshot of the set: every path not carried by
any current entry is removed via `updateEcoCoresList(false, ·)` (which
serializes), and `updated` records whether anything was removed. -/
def cleanupEcoCoresGo (cores : List EntityPath) (st : ManagerState)
    (updated : Bool) : ManagerState × List Effect × Bool :=
  match cores with
  | [] => (st, [], updated)
  | core :: rest =>
    if st.entries.any (fun p => decide (p.2.entityPath = core)) then
      cleanupEcoCoresGo rest st updated
    else
      let r₁ := updateEcoCoresList false core st
      let r₂ := cleanupEcoCoresGo rest r₁.1 true
      (r₂.1, r₁.2 ++ r₂.2.1, r₂.2.2)

/-- `Manager::cleanupPersistedEcoCores` (manager.cpp:668): if the entry map
is empty, clear the whole set (and mark updated); otherwise sweep the set;
finally `serialize()` when updated. -/
def cleanupPersistedEcoCores (st : ManagerState) : ManagerState × List Effect :=
  if st.entries.isEmpty then
    ({ st with ecoCores := [] }, [Effect.serializedEcoCores])
  else
    let r := cleanupEcoCoresGo st.ecoCores st false
    if r.2.2 then (r.1, r.2.1 ++ [Effect.serializedEcoCores]) else (r.1, r.2.1)

/-- The loop body of `Manager::resolveAllEntries` (manager.cpp:429) over a
snapshot of the map's keys (a failure on one entry is caught and the loop
continues). -/
def resolveAllGo (clearRecord : Bool) :
    List Nat → ManagerState → ManagerState × List Effect
  | [], st => (st, [])
  | k :: ks, st =>
    let r₁ := Entry.resolveEntry clearRecord k st
    let r₂ := resolveAllGo clearRecord ks r₁.1
    (r₂.1, r₁.2 ++ r₂.2)

/-- `Manager::resolveAllEntries`. -/
def resolveAllEntries (clearRecord : Bool) (st : ManagerState) :
    ManagerState × List Effect :=
  resolveAllGo clearRecord (st.entries.map Prod.fst) st

/-- `Manager::handleHostIsolatedHardwares` (manager.cpp:776): pop the front
debounce timer, enumerate the non-ephemeral records; if none remain while
entries exist, resolve every entry without clearing and clear the map (full
reset); otherwise run the per-entry diff, create entries for unmatched valid
records, and clean up the eco-core set. -/
def handleHostIsolatedHardwares (env : Env) (st : ManagerState) :
    ManagerState × List Effect :=
  let st₀ := { st with timers := st.timers - 1 }
  let records := getAll true st₀.store
  if records.length = 0 ∧ 0 < st₀.entries.length then
    let r := resolveAllEntries false st₀
    ({ r.1 with entries := [] }, r.2)
  else
    let r₁ := reconcileEntries env records (st₀.entries.map Prod.fst) st₀
    let validRecords := records.filter (fun r => isValidRecord r.recordId)
    let r₂ := createEntriesForRecords env validRecords r₁.1
    let r₃ := cleanupPersistedEcoCores r₂.1
    (r₃.1, r₁.2 ++ r₂.2 ++ r₃.2)

/-- The record loop of `Manager::restore` (manager.cpp:725). -/
def restoreGo (env : Env) :
    List GuardRecord → ManagerState → ManagerState × List Effect
  | [], st => (st, [])
  | r :: rs, st =>
    let r₁ := createEntryForRecord env r true st
    let r₂ := restoreGo env rs r₁.1
    (r₂.1, r₁.2 ++ r₂.2)

/-- `Manager::restore` (manager.cpp:725): enumerate the non-ephemeral
records, create an entry for each valid one (restore mode), then clean up
persisted state (the stale per-entry file removal of
`cleanupPersistedFiles` is a pure filesystem action and is not modelled;
its `cleanupPersistedEcoCores` call is). -/
def restore (env : Env) (st : ManagerState) : ManagerState × List Effect :=
  let records := getAll true st.store
  let validRecords := records.filter (fun r => isValidRecord r.recordId)
  let r₁ := restoreGo env validRecords st
  let r₂ := cleanupPersistedEcoCores r₁.1
  (r₂.1, r₁.2 ++ r₂.2)

/-- `Manager::processHardwareIsolationRecordFile` (manager.cpp:747): every
guard-file change signal emplaces one more 5-second debounce timer on the
`_timerObjs` queue. -/
def processHardwareIsolationRecordFile (st : ManagerState) : ManagerState :=
  { st with timers := st.timers + 1 }

/-! ### Creation API (from `manager.cpp`) -/

/-- The error taxonomy surfaced by the creation API (§7). `uncaughtException`
stands for a C++ exception that is not part of the D-Bus error taxonomy
escaping to the caller (e.g. `std::invalid_argument` out of `std::stoi`). -/
inductive MgrError where
  | unavailable
  | notAllowed
  | invalidArgument
  | internalFailure
  | uncaughtException
deriving DecidableEq, Repr

/-- `Manager::isHwIsolationAllowed` (manager.cpp:274): `Unavailable` when
the isolation setting is disabled; for `Manual` severity, `NotAllowed`
unless the chassis power state is `Off`.  `some err` models a throw. -/
def isHwIsolationAllowed (env : Env) (severity : EntrySeverity) : Option MgrError :=
  if !env.settingEnabled then some MgrError.unavailable
  else if severity = EntrySeverity.manual then
    if env.powerStateOff then none else some MgrError.notAllowed
  else none

/-- The leading-integer parse performed by `std::stoi`: optional sign, then
at least one decimal digit (otherwise `std::invalid_argument`); values
outside the `int` range raise `std::out_of_range`.  `none` models a throw. -/
def stoiOpt (s : String) : Option Int :=
  let cs := s.toList
  let signed : Int × List Char :=
    match cs with
    | '-' :: r => (-1, r)
    | '+' :: r => (1, r)
    | r => (1, r)
  let ds := signed.2.takeWhile Char.isDigit
  if ds.isEmpty then none
  else
    let v : Int := signed.1 * (ds.foldl (fun acc c => acc * 10 + (c.toNat - 48)) 0 : Nat)
    if v < -2147483648 ∨ 2147483647 < v then none else some v

/-- Character scan for `pathFilename`: keep the characters accumulated since
the most recent `/`. -/
def pathFilenameGo : List Char → List Char → List Char
  | [], acc => acc.reverse
  | c :: rest, acc =>
    if c = '/' then pathFilenameGo rest [] else pathFilenameGo rest (c :: acc)

/-- `sdbusplus::message::object_path::filename()`: the segment after the
last `/`. -/
def pathFilename (s : String) : String :=
  String.mk (pathFilenameGo s.toList [])

/-- `Manager::getEID` (manager.cpp:123): resolve the logging service, parse
the log path's filename with `std::stoi` (cast to `uint32_t`), and call
`GetPELIdFromBMCLogId`.  The `catch` handles only `SdBusError`, so a parse
failure escapes (`Except.error`); remote failures yield `none`. -/
def getEID (env : Env) (bmcErrorLog : String) : Except Unit (Option Nat) :=
  match env.loggingService with
  | Except.error _ => Except.ok none
  | Except.ok _ =>
    match stoiOpt (pathFilename bmcErrorLog) with
    | none => Except.error ()
    | some v =>
      match env.getPELIdFromBMCLogId ((v % 4294967296).toNat) with
      | Except.error _ => Except.ok none
      | Except.ok eid => Except.ok (some eid)

/-- `Manager::create` (manager.cpp:305): policy gate, catalog resolution,
severity-to-gard-type mapping, durable guard-store create, then either
update the racing existing entry or materialize a new one; a materialization
failure rolls the durable record back and surfaces `InternalFailure`.
The state is returned alongside the outcome (a C++ throw does not undo
already-performed side effects). -/
def create (env : Env) (isolateHardware : String) (severity : EntrySeverity)
    (st : ManagerState) : Except MgrError String × ManagerState × List Effect :=
  match isHwIsolationAllowed env severity with
  | some err => (Except.error err, st, [])
  | none =>
  match env.getPhysicalPath isolateHardware with
  | none => (Except.error MgrError.invalidArgument, st, [])
  | some physPath =>
  match env.getGuardType severity with
  | none => (Except.error MgrError.invalidArgument, st, [])
  | some gt =>
  let cr := storeCreate env physPath 0 gt st.store
  let record := cr.1
  let st₁ := { st with store := cr.2 }
  let ret := updateEntry env record.recordId severity isolateHardware "" record.targetId st₁
  if ret.1.1 then (Except.ok ret.1.2, ret.2.1, ret.2.2)
  else
    let ce := createEntry env record.recordId false severity isolateHardware ""
        true record.targetId ret.2.1
    match ce.1 with
    | some path => (Except.ok path, ce.2.1, ret.2.2 ++ ce.2.2)
    | none => (Except.error MgrError.internalFailure, ce.2.1, ret.2.2 ++ ce.2.2)

/-- `Manager::createWithErrorLog` (manager.cpp:356): as `create`, but the
error-log reference is resolved through `getEID` first (its uncaught parse
exception propagates) and attached as an association. -/
def createWithErrorLog (env : Env) (isolateHardware : String)
    (severity : EntrySeverity) (bmcErrorLog : String) (st : ManagerState) :
    Except MgrError String × ManagerState × List Effect :=
  match isHwIsolationAllowed env severity with
  | some err => (Except.error err, st, [])
  | none =>
  match env.getPhysicalPath isolateHardware with
  | none => (Except.error MgrError.invalidArgument, st, [])
  | some physPath =>
  match getEID env bmcErrorLog with
  | Except.error _ => (Except.error MgrError.uncaughtException, st, [])
  | Except.ok none => (Except.error MgrError.invalidArgument, st, [])
  | Except.ok (some eId) =>
  match env.getGuardType severity with
  | none => (Except.error MgrError.invalidArgument, st, [])
  | some gt =>
  let cr := storeCreate env physPath eId gt st.store
  let record := cr.1
  let st₁ := { st with store := cr.2 }
  let ret := updateEntry env record.recordId severity isolateHardware bmcErrorLog
      record.targetId st₁
  if ret.1.1 then (Except.ok ret.1.2, ret.2.1, ret.2.2)
  else
    let ce := createEntry env record.recordId false severity isolateHardware
        bmcErrorLog true record.targetId ret.2.1
    match ce.1 with
    | some path => (Except.ok path, ce.2.1, ret.2.2 ++ ce.2.2)
    | none => (Except.error MgrError.internalFailure, ce.2.1, ret.2.2 ++ ce.2.2)

/-- `Manager::createWithEntityPath` (manager.cpp:870): the physical path is
given directly; the inventory path and eco-core flag are resolved through
the catalog, eco-core membership is recorded, then as `createWithErrorLog`. -/
def createWithEntityPath (env : Env) (entityPath : EntityPath)
    (severity : EntrySeverity) (bmcErrorLog : String) (st : ManagerState) :
    Except MgrError String × ManagerState × List Effect :=
  match isHwIsolationAllowed env severity with
  | some err => (Except.error err, st, [])
  | none =>
  match env.getInventoryPath entityPath false with
  | none => (Except.error MgrError.invalidArgument, st, [])
  | some (invPath, ecoCore) =>
  let r₀ := updateEcoCoresList ecoCore entityPath st
  match getEID env bmcErrorLog with
  | Except.error _ => (Except.error MgrError.uncaughtException, r₀.1, r₀.2)
  | Except.ok none => (Except.error MgrError.invalidArgument, r₀.1, r₀.2)
  | Except.ok (some eId) =>
  match env.getGuardType severity with
  | none => (Except.error MgrError.invalidArgument, r₀.1, r₀.2)
  | some gt =>
  let cr := storeCreate env entityPath eId gt r₀.1.store
  let record := cr.1
  let st₂ := { r₀.1 with store := cr.2 }
  let ret := updateEntry env record.recordId severity invPath bmcErrorLog
      record.targetId st₂
  if ret.1.1 then (Except.ok ret.1.2, ret.2.1, r₀.2 ++ ret.2.2)
  else
    let ce := createEntry env record.recordId false severity invPath bmcErrorLog
        true record.targetId ret.2.1
    match ce.1 with
    | some path => (Except.ok path, ce.2.1, r₀.2 ++ ret.2.2 ++ ce.2.2)
    | none => (Except.error MgrError.internalFailure, ce.2.1, r₀.2 ++ ret.2.2 ++ ce.2.2)

end Manager

/-- The effect trace of a full-reset pass (`resolveAllEntries(false)` over
the given entries): one clear-free resolution (plus the eco-core
serialization of `eraseEntry`) per not-yet-resolved entry, in map order, and
nothing else — in particular no per-record update or creation step. -/
def resolveTrace : List (Nat × Entry) → List Effect
  | [] => []
  | (k, e) :: rest =>
    (if e.resolved then [] else
      [Effect.resolvedEntry k false, Effect.serializedEcoCores]) ++ resolveTrace rest

/-- The effect trace of resolving (without clearing) a list of keys against
a fixed entry map: the key-indexed generalization of `resolveTrace` used to
reason about `resolveAllGo`. -/
def keyResolveTrace (entries : List (Nat × Entry)) : List Nat → List Effect
  | [] => []
  | k :: ks =>
    (match mapFind? k entries with
     | none => []
     | some e =>
       if e.resolved then [] else
         [Effect.resolvedEntry k false, Effect.serializedEcoCores]) ++
      keyResolveTrace entries ks

/-- Invariant I2: no map key and no entry carries the sentinel record id
`0xFFFFFFFF`. -/
def SentinelFree (st : ManagerState) : Prop :=
  ∀ q ∈ st.entries, q.1 ≠ 0xFFFFFFFF ∧ q.2.recordId ≠ 0xFFFFFFFF

/-- The valid (non-sentinel) records of the snapshot sharing a given entity
path — what the per-entry diff computes as `validEntryRecords`. -/
def validMatches (records : List GuardRecord) (p : EntityPath) : List GuardRecord :=
  (records.filter (fun r => decide (p = r.targetId))).filter
    (fun r => Manager.isValidRecord r.recordId)

/-- Effects that mutate an entry: destruction by resolution, or a creation
timestamp refresh.  (Severity/association writes always come with a refresh
when they change anything.) -/
def entryMutEffect : Effect → Bool
  | Effect.resolvedEntry _ _ => true
  | Effect.refreshedTimestamp _ => true
  | _ => false

/-- An entry is a fixed point of `updateEntryForRecord` for record `r`:
either one of the environment lookups fails (the update skips), or the
entry already carries the severity and associations the update would
write. -/
def UpdateFix (env : Env) (r : GuardRecord) (e : Entry) : Prop :=
  match env.getInventoryPath r.targetId false with
  | none => True
  | some (invPath, _) =>
    match env.getBMCLogPath r.elogId with
    | none => True
    | some bmcPath =>
      match env.getEntrySeverityType r.errType with
      | none => True
      | some sev =>
        e.severity = sev ∧
          e.associations = Manager.buildAssociations invPath bmcPath

/-- An entry the per-entry diff will not mutate: several valid records share
its path (consistency-violation branch), or exactly one does and the entry
is already up to date, or the entry is already resolved and no valid record
matches (so the resolution no-ops). -/
def EntryOK (env : Env) (records : List GuardRecord) (e : Entry) : Prop :=
  2 ≤ (validMatches records e.entityPath).length ∨
  (∃ r, validMatches records e.entityPath = [r] ∧ UpdateFix env r e) ∨
  (e.resolved = true ∧ validMatches records e.entityPath = [])

/-- `createEntryForRecord` on the runtime path fails for this record before
inserting anything: an environment lookup fails or the entry constructor
throws. -/
def CreateFails (env : Env) (r : GuardRecord) : Prop :=
  env.getInventoryPath r.targetId false = none ∨
  env.getBMCLogPath r.elogId = none ∨
  env.getEntrySeverityType r.errType = none ∨
  env.entryCtorOk r.recordId = false

/-- `std::map::insert` with this key is a no-op on the given entry list
(whatever value is inserted). -/
def insertInert (k : Nat) (E : List (Nat × Entry)) : Prop :=
  ∀ v, mapInsert k v E = E

/-- A valid record the unmatched-record step will not mutate the entry map
for: some entry already carries its path, or its creation fails before
inserting, or its insert is a no-op. -/
def RecordOK (env : Env) (E : List (Nat × Entry)) (r : GuardRecord) : Prop :=
  (∃ q ∈ E, q.2.entityPath = r.targetId) ∨ CreateFails env r ∨
    insertInert r.recordId E

/-! ### Concrete fixtures used to instantiate theorems with hypotheses -/

/-- A benign concrete environment. -/
def envA : Env where
  getInventoryPath := fun p _ => some ("/inv/" ++ toString p.length, false)
  getPhysicalPath := fun _ => some [1, 2]
  getBMCLogPath := fun e => some (if e = 0 then "" else "/log/1")
  getEntrySeverityType := fun _ => some EntrySeverity.critical
  getGuardType := fun _ => some 1
  entryCtorOk := fun _ => true
  time := 100
  settingEnabled := true
  powerStateOff := false
  newRecordId := 7
  loggingService := Except.ok "svc"
  getPELIdFromBMCLogId := fun _ => Except.ok 5

/-- `envA` with the isolation setting disabled. -/
def envDisabled : Env := { envA with settingEnabled := false }

/-- `envA` whose `GetPELIdFromBMCLogId` D-Bus call fails with `SdBusError`. -/
def envPelFails : Env :=
  { envA with getPELIdFromBMCLogId := fun _ => Except.error () }

/-- `envA` where materializing the `entry::Entry` for record id 7 throws. -/
def envCtorFails : Env := { envA with entryCtorOk := fun n => decide (n ≠ 7) }

/-- An unresolved entry fixture for record id 1 with entity path `[1, 2]`. -/
def entryA : Entry where
  recordId := 1
  severity := EntrySeverity.critical
  resolved := false
  associations := [("isolated_hw", "isolated_hw_entry", "/inv/2")]
  entityPath := [1, 2]
  elapsed := 50

/-- An unresolved entry fixture for record id 2 with entity path `[3]`. -/
def entryB : Entry where
  recordId := 2
  severity := EntrySeverity.warning
  resolved := false
  associations := [("isolated_hw", "isolated_hw_entry", "/inv/1")]
  entityPath := [3]
  elapsed := 60

/-- A manager fixture holding `entryA` and `entryB` with an empty store. -/
def stTwoEntries : ManagerState where
  entries := [(1, entryA), (2, entryB)]
  ecoCores := [[9]]
  store := []
  timers := 1

/-- A manager fixture whose store carries two valid records sharing entity
path `[1, 2]` — a constructed violation of the store's uniqueness
invariant. -/
def stDupPath : ManagerState where
  entries := [(1, entryA)]
  ecoCores := []
  store :=
    [{ recordId := 1, targetId := [1, 2], errType := 1, elogId := 0, ephemeral := false },
     { recordId := 5, targetId := [1, 2], errType := 1, elogId := 0, ephemeral := false }]
  timers := 1

/-- An empty manager fixture. -/
def stEmpty : ManagerState where
  entries := []
  ecoCores := []
  store := []
  timers := 0

/-! ### Association-list lemmas -/

theorem mapFind?_mem {k : Nat} {e : Entry} :
    ∀ {l : List (Nat × Entry)}, mapFind? k l = some e → (k, e) ∈ l := by
  intro l
  induction l with
  | nil => simp [mapFind?]
  | cons p rest ih =>
    obtain ⟨k', v⟩ := p
    simp only [mapFind?]
    by_cases h : k = k'
    · rw [if_pos h]
      intro hv
      subst h
      rw [Option.some.injEq] at hv
      subst hv
      exact List.mem_cons_self _ _
    · rw [if_neg h]
      intro hf
      exact List.mem_cons_of_mem _ (ih hf)

theorem mem_mapSet {k : Nat} {v : Entry} {q : Nat × Entry} :
    ∀ {l : List (Nat × Entry)}, q ∈ mapSet k v l → q ∈ l ∨ q = (k, v) := by
  intro l
  induction l with
  | nil => simp [mapSet]
  | cons p rest ih =>
    obtain ⟨k', v'⟩ := p
    simp only [mapSet]
    by_cases h : k = k'
    · simp [h]
      rintro (rfl | hq)
      · exact Or.inr (by simp [h])
      · exact Or.inl (Or.inr hq)
    · simp [h]
      rintro (rfl | hq)
      · exact Or.inl (Or.inl rfl)
      · rcases ih hq with h' | h'
        · exact Or.inl (Or.inr h')
        · exact Or.inr h'

theorem mem_mapInsert {k : Nat} {v : Entry} {q : Nat × Entry} :
    ∀ {l : List (Nat × Entry)}, q ∈ mapInsert k v l → q ∈ l ∨ q = (k, v) := by
  intro l
  induction l with
  | nil => simp [mapInsert]
  | cons p rest ih =>
    obtain ⟨k', v'⟩ := p
    simp only [mapInsert]
    by_cases h1 : k < k'
    · simp [h1]
      rintro (hq | hq | hq)
      · exact Or.inr hq
      · exact Or.inl (Or.inl hq)
      · exact Or.inl (Or.inr hq)
    · by_cases h2 : k = k'
      · simp [h1, h2]
        rintro (hq | hq)
        · exact Or.inl (Or.inl hq)
        · exact Or.inl (Or.inr hq)
      · simp [h1, h2]
        rintro (hq | hq)
        · exact Or.inl (Or.inl hq)
        · rcases ih hq with h' | h'
          · exact Or.inl (Or.inr h')
          · exact Or.inr h'

theorem mem_mapErase {k : Nat} {q : Nat × Entry} {l : List (Nat × Entry)}
    (h : q ∈ mapErase k l) : q ∈ l :=
  List.mem_of_mem_filter h

theorem mapFind?_mapSet_self {k : Nat} {e v : Entry} :
    ∀ {l : List (Nat × Entry)}, mapFind? k l = some e →
      mapFind? k (mapSet k v l) = some v := by
  intro l
  induction l with
  | nil => simp [mapFind?]
  | cons p rest ih =>
    obtain ⟨k', v'⟩ := p
    simp only [mapFind?, mapSet]
    by_cases h : k = k'
    · simp [h, mapFind?]
    · simp [h, mapFind?]
      exact ih

theorem mapFind?_mapSet_of_ne {k k' : Nat} (hne : k' ≠ k) {v : Entry} :
    ∀ {l : List (Nat × Entry)}, mapFind? k' (mapSet k v l) = mapFind? k' l := by
  intro l
  induction l with
  | nil => simp [mapSet]
  | cons p rest ih =>
    obtain ⟨k₀, v₀⟩ := p
    simp only [mapSet]
    by_cases h : k = k₀
    · subst h
      simp [mapFind?, hne]
    · simp only [if_neg h, mapFind?]
      by_cases h' : k' = k₀
      · simp [h']
      · simp [h', ih]

theorem mapFind?_mapSet_cancel {k : Nat} {e : Entry} :
    ∀ {l : List (Nat × Entry)}, mapFind? k l = some e → mapSet k e l = l := by
  intro l
  induction l with
  | nil => simp [mapSet]
  | cons p rest ih =>
    obtain ⟨k', v'⟩ := p
    simp only [mapFind?, mapSet]
    by_cases h : k = k'
    · simp [h]
      intro hv
      exact hv.symm
    · simp [h]
      exact ih

theorem mapErase_cons_self {k : Nat} {v : Entry} {l : List (Nat × Entry)} :
    mapErase k ((k, v) :: l) = mapErase k l := by
  simp [mapErase, List.filter_cons]

theorem mapErase_cons_of_ne {k k₀ : Nat} (h : k₀ ≠ k) {v : Entry}
    {l : List (Nat × Entry)} :
    mapErase k ((k₀, v) :: l) = (k₀, v) :: mapErase k l := by
  simp [mapErase, List.filter_cons, h]

theorem mapFind?_mapErase_of_ne {k k' : Nat} (hne : k' ≠ k) :
    ∀ {l : List (Nat × Entry)}, mapFind? k' (mapErase k l) = mapFind? k' l := by
  intro l
  induction l with
  | nil => simp [mapErase, mapFind?]
  | cons p rest ih =>
    obtain ⟨k₀, v₀⟩ := p
    by_cases h : k₀ = k
    · subst h
      rw [mapErase_cons_self]
      rw [ih]
      simp [mapFind?, hne]
    · rw [mapErase_cons_of_ne h]
      simp only [mapFind?]
      by_cases h' : k' = k₀
      · simp [h']
      · simp [h', ih]

theorem mapFind?_mapErase_self {k : Nat} :
    ∀ {l : List (Nat × Entry)}, mapFind? k (mapErase k l) = none := by
  intro l
  induction l with
  | nil => simp [mapErase, mapFind?]
  | cons p rest ih =>
    obtain ⟨k₀, v₀⟩ := p
    by_cases h : k₀ = k
    · subst h
      rw [mapErase_cons_self]
      exact ih
    · rw [mapErase_cons_of_ne h]
      have h' : ¬ k = k₀ := fun hh => h hh.symm
      simp [mapFind?, h', ih]

theorem mapFind?_mapInsert_of_ne {k k' : Nat} (hne : k' ≠ k) {v : Entry} :
    ∀ {l : List (Nat × Entry)}, mapFind? k' (mapInsert k v l) = mapFind? k' l := by
  intro l
  induction l with
  | nil => simp [mapInsert, mapFind?, hne]
  | cons p rest ih =>
    obtain ⟨k₀, v₀⟩ := p
    simp only [mapInsert]
    by_cases h1 : k < k₀
    · simp [h1, mapFind?, hne]
    · by_cases h2 : k = k₀
      · simp [h1, h2]
      · simp only [if_neg h1, if_neg h2, mapFind?]
        by_cases h' : k' = k₀
        · simp [h']
        · simp [h', ih]

theorem mem_mapInsert_of_mem {k : Nat} {v : Entry} {q : Nat × Entry} :
    ∀ {l : List (Nat × Entry)}, q ∈ l → q ∈ mapInsert k v l := by
  intro l
  induction l with
  | nil => simp
  | cons p rest ih =>
    obtain ⟨k₀, v₀⟩ := p
    intro hq
    simp only [mapInsert]
    split
    · exact List.mem_cons_of_mem _ hq
    · split
      · exact hq
      · rcases List.mem_cons.mp hq with h | h
        · exact h ▸ List.mem_cons_self _ _
        · exact List.mem_cons_of_mem _ (ih h)

theorem mapInsert_find_or (k : Nat) (v : Entry) :
    ∀ (l : List (Nat × Entry)),
      mapFind? k (mapInsert k v l) = some v ∨ mapInsert k v l = l := by
  intro l
  induction l with
  | nil => exact Or.inl (by simp [mapInsert, mapFind?])
  | cons p rest ih =>
    obtain ⟨k₀, v₀⟩ := p
    simp only [mapInsert]
    by_cases h1 : k < k₀
    · exact Or.inl (by simp [h1, mapFind?])
    · by_cases h2 : k = k₀
      · simp [h1, h2]
      · simp only [if_neg h1, if_neg h2]
        rcases ih with hfind | hnoop
        · exact Or.inl (by simp [mapFind?, h2, hfind])
        · exact Or.inr (by rw [hnoop])

theorem mapInsert_mem_or (k : Nat) (v : Entry) :
    ∀ (l : List (Nat × Entry)),
      mapInsert k v l = l ∨ (k, v) ∈ mapInsert k v l := by
  intro l
  induction l with
  | nil => exact Or.inr (by simp [mapInsert])
  | cons p rest ih =>
    obtain ⟨k₀, v₀⟩ := p
    simp only [mapInsert]
    by_cases h1 : k < k₀
    · exact Or.inr (by simp [h1])
    · by_cases h2 : k = k₀
      · simp [h1, h2]
      · simp only [if_neg h1, if_neg h2]
        rcases ih with hnoop | hmem
        · exact Or.inl (by rw [hnoop])
        · exact Or.inr (List.mem_cons_of_mem _ hmem)

theorem mapInsert_noop_key_present {k : Nat} {v : Entry} :
    ∀ {l : List (Nat × Entry)}, mapInsert k v l = l →
      ∃ e, mapFind? k l = some e := by
  intro l
  induction l with
  | nil => intro h; simp [mapInsert] at h
  | cons p rest ih =>
    obtain ⟨k₀, v₀⟩ := p
    simp only [mapInsert]
    by_cases h1 : k < k₀
    · intro h
      rw [if_pos h1] at h
      exact absurd (congrArg List.length h) (by simp)
    · by_cases h2 : k = k₀
      · intro _
        exact ⟨v₀, by simp [mapFind?, h2]⟩
      · intro h
        rw [if_neg h1, if_neg h2, List.cons.injEq] at h
        obtain ⟨e, he⟩ := ih h.2
        exact ⟨e, by simp [mapFind?, h2, he]⟩

theorem mapInsert_noop_indep {k : Nat} {v : Entry} :
    ∀ {l : List (Nat × Entry)}, mapInsert k v l = l →
      ∀ (v' : Entry), mapInsert k v' l = l := by
  intro l
  induction l with
  | nil => intro h; simp [mapInsert] at h
  | cons p rest ih =>
    obtain ⟨k₀, v₀⟩ := p
    simp only [mapInsert]
    by_cases h1 : k < k₀
    · intro h
      rw [if_pos h1] at h
      exact absurd (congrArg List.length h) (by simp)
    · by_cases h2 : k = k₀
      · intro _ v'
        simp [h1, h2]
      · intro h v'
        rw [if_neg h1, if_neg h2, List.cons.injEq] at h
        simp only [if_neg h1, if_neg h2, List.cons.injEq, true_and]
        exact ih h.2 v'

theorem mapInsert_noop_persist {k j : Nat} (hjk : j ≠ k) {v w : Entry} :
    ∀ {l : List (Nat × Entry)}, mapInsert k v l = l →
      mapInsert k v (mapInsert j w l) = mapInsert j w l := by
  intro l
  induction l with
  | nil => intro h; simp [mapInsert] at h
  | cons p rest ih =>
    obtain ⟨k₀, v₀⟩ := p
    intro h
    have hnk : ¬ k < k₀ := by
      intro h1
      rw [mapInsert, if_pos h1] at h
      exact absurd (congrArg List.length h) (by simp)
    by_cases h2 : k = k₀
    · -- the k-insert stops at this head; the j-insert keeps it reachable
      subst h2
      simp only [mapInsert]
      by_cases hj1 : j < k
      · have hkj : ¬ k < j := by omega
        simp only [if_pos hj1, mapInsert, if_neg hkj,
          if_neg (fun hc : k = j => hjk hc.symm), if_neg (lt_irrefl k), if_pos rfl,
          eq_self_iff_true, if_true]
      · by_cases hj2 : j = k
        · exact absurd hj2 hjk
        · simp only [if_neg hj1, if_neg hj2, mapInsert, if_neg (lt_irrefl k),
            if_pos rfl, eq_self_iff_true, if_true]
    · have h' : mapInsert k v rest = rest := by
        rw [mapInsert, if_neg hnk, if_neg h2, List.cons.injEq] at h
        exact h.2
      simp only [mapInsert]
      by_cases hj1 : j < k₀
      · have hkj : ¬ k < j := by omega
        simp only [if_pos hj1, mapInsert, if_neg hkj,
          if_neg (fun hc : k = j => hjk hc.symm), if_neg hnk, if_neg h2]
        rw [h']
      · by_cases hj2 : j = k₀
        · simp only [if_neg hj1, if_pos hj2, mapInsert, if_neg hnk, if_neg h2]
          rw [h']
        · simp only [if_neg hj1, if_neg hj2, mapInsert, if_neg hnk, if_neg h2,
            List.cons.injEq, true_and]
          exact ih h'

/-! ### `applyEntryUpdate` facts -/

theorem applyEntryUpdate_recordId (env : Env) (s : EntrySeverity)
    (a : List Association) (e : Entry) :
    (Manager.applyEntryUpdate env s a e).1.recordId = e.recordId := by
  simp only [Manager.applyEntryUpdate]
  split <;> split <;> split <;> rfl

theorem applyEntryUpdate_entityPath (env : Env) (s : EntrySeverity)
    (a : List Association) (e : Entry) :
    (Manager.applyEntryUpdate env s a e).1.entityPath = e.entityPath := by
  simp only [Manager.applyEntryUpdate]
  split <;> split <;> split <;> rfl

theorem applyEntryUpdate_resolved (env : Env) (s : EntrySeverity)
    (a : List Association) (e : Entry) :
    (Manager.applyEntryUpdate env s a e).1.resolved = e.resolved := by
  simp only [Manager.applyEntryUpdate]
  split <;> split <;> split <;> rfl

theorem applyEntryUpdate_severity (env : Env) (s : EntrySeverity)
    (a : List Association) (e : Entry) :
    (Manager.applyEntryUpdate env s a e).1.severity = s := by
  simp only [Manager.applyEntryUpdate]
  split <;> split <;> split <;> simp_all

theorem applyEntryUpdate_associations (env : Env) (s : EntrySeverity)
    (a : List Association) (e : Entry) :
    (Manager.applyEntryUpdate env s a e).1.associations = a := by
  simp only [Manager.applyEntryUpdate]
  split <;> split <;> split <;> simp_all

theorem applyEntryUpdate_noop (env : Env) (s : EntrySeverity)
    (a : List Association) (e : Entry) (h1 : e.severity = s)
    (h2 : e.associations = a) :
    Manager.applyEntryUpdate env s a e = (e, false) := by
  simp [Manager.applyEntryUpdate, h1, h2]

/-! ### Frame lemmas: state components each operation leaves untouched -/

theorem updateEcoCoresList_entries (b : Bool) (p : EntityPath) (st : ManagerState) :
    (Manager.updateEcoCoresList b p st).1.entries = st.entries := rfl

theorem updateEcoCoresList_store (b : Bool) (p : EntityPath) (st : ManagerState) :
    (Manager.updateEcoCoresList b p st).1.store = st.store := rfl

theorem updateEcoCoresList_timers (b : Bool) (p : EntityPath) (st : ManagerState) :
    (Manager.updateEcoCoresList b p st).1.timers = st.timers := rfl

theorem eraseEntry_store (k : Nat) (st : ManagerState) :
    (Manager.eraseEntry k st).1.store = st.store := by
  simp only [Manager.eraseEntry]
  split <;> rfl

theorem eraseEntry_timers (k : Nat) (st : ManagerState) :
    (Manager.eraseEntry k st).1.timers = st.timers := by
  simp only [Manager.eraseEntry]
  split <;> rfl

theorem resolveEntry_false_store (k : Nat) (st : ManagerState) :
    (Entry.resolveEntry false k st).1.store = st.store := by
  simp only [Entry.resolveEntry]
  split
  · rfl
  · split
    · rfl
    · simp only [if_neg (Bool.false_ne_true)]
      exact eraseEntry_store k st

theorem resolveEntry_timers (clearRecord : Bool) (k : Nat) (st : ManagerState) :
    (Entry.resolveEntry clearRecord k st).1.timers = st.timers := by
  simp only [Entry.resolveEntry]
  split
  · rfl
  · split
    · rfl
    · rw [eraseEntry_timers]
      split <;> rfl

theorem createEntry_timers (env : Env) (recordId : Nat) (resolved : Bool)
    (severity : EntrySeverity) (hw bmc : String) (del : Bool) (path : EntityPath)
    (st : ManagerState) :
    (Manager.createEntry env recordId resolved severity hw bmc del path st).2.1.timers
      = st.timers := by
  simp only [Manager.createEntry]
  split
  · rfl
  · split <;> rfl

theorem createEntry_ecoCores (env : Env) (recordId : Nat) (resolved : Bool)
    (severity : EntrySeverity) (hw bmc : String) (del : Bool) (path : EntityPath)
    (st : ManagerState) :
    (Manager.createEntry env recordId resolved severity hw bmc del path st).2.1.ecoCores
      = st.ecoCores := by
  simp only [Manager.createEntry]
  split
  · rfl
  · split <;> rfl

theorem createEntry_false_store (env : Env) (recordId : Nat) (resolved : Bool)
    (severity : EntrySeverity) (hw bmc : String) (path : EntityPath)
    (st : ManagerState) :
    (Manager.createEntry env recordId resolved severity hw bmc false path st).2.1.store
      = st.store := by
  simp only [Manager.createEntry]
  split
  · rfl
  · simp

theorem updateEntry_store (env : Env) (recordId : Nat) (severity : EntrySeverity)
    (hw bmc : String) (path : EntityPath) (st : ManagerState) :
    (Manager.updateEntry env recordId severity hw bmc path st).2.1.store = st.store := by
  simp only [Manager.updateEntry]
  split <;> rfl

theorem updateEntry_timers (env : Env) (recordId : Nat) (severity : EntrySeverity)
    (hw bmc : String) (path : EntityPath) (st : ManagerState) :
    (Manager.updateEntry env recordId severity hw bmc path st).2.1.timers = st.timers := by
  simp only [Manager.updateEntry]
  split <;> rfl

theorem updateEntry_ecoCores (env : Env) (recordId : Nat) (severity : EntrySeverity)
    (hw bmc : String) (path : EntityPath) (st : ManagerState) :
    (Manager.updateEntry env recordId severity hw bmc path st).2.1.ecoCores = st.ecoCores := by
  simp only [Manager.updateEntry]
  split <;> rfl

theorem updateEntryForRecord_store (env : Env) (record : GuardRecord) (k : Nat)
    (st : ManagerState) :
    (Manager.updateEntryForRecord env record k st).1.store = st.store := by
  simp only [Manager.updateEntryForRecord]
  split
  · rfl
  · split
    · rfl
    · split
      · rfl
      · split <;> rfl

theorem updateEntryForRecord_timers (env : Env) (record : GuardRecord) (k : Nat)
    (st : ManagerState) :
    (Manager.updateEntryForRecord env record k st).1.timers = st.timers := by
  simp only [Manager.updateEntryForRecord]
  split
  · rfl
  · split
    · rfl
    · split
      · rfl
      · split <;> rfl

theorem createEntryForRecord_store (env : Env) (record : GuardRecord)
    (isRestorePath : Bool) (st : ManagerState) :
    (Manager.createEntryForRecord env record isRestorePath st).1.store = st.store := by
  simp only [Manager.createEntryForRecord]
  split
  · rfl
  · split
    · rfl
    · split
      · rfl
      · exact createEntry_false_store _ _ _ _ _ _ _ _

theorem createEntryForRecord_timers (env : Env) (record : GuardRecord)
    (isRestorePath : Bool) (st : ManagerState) :
    (Manager.createEntryForRecord env record isRestorePath st).1.timers = st.timers := by
  simp only [Manager.createEntryForRecord]
  split
  · rfl
  · split
    · rfl
    · split
      · rfl
      · exact createEntry_timers _ _ _ _ _ _ _ _ _

theorem reconcileOne_store (env : Env) (records : List GuardRecord) (k : Nat)
    (st : ManagerState) :
    (Manager.reconcileOne env records k st).1.store = st.store := by
  simp only [Manager.reconcileOne]
  split
  · rfl
  · split
    · exact resolveEntry_false_store k st
    · exact resolveEntry_false_store k st
    · exact updateEntryForRecord_store _ _ _ _
    · rfl

theorem reconcileOne_timers (env : Env) (records : List GuardRecord) (k : Nat)
    (st : ManagerState) :
    (Manager.reconcileOne env records k st).1.timers = st.timers := by
  simp only [Manager.reconcileOne]
  split
  · rfl
  · split
    · exact resolveEntry_timers false k st
    · exact resolveEntry_timers false k st
    · exact updateEntryForRecord_timers _ _ _ _
    · rfl

theorem reconcileEntries_store (env : Env) (records : List GuardRecord) :
    ∀ (ks : List Nat) (st : ManagerState),
      (Manager.reconcileEntries env records ks st).1.store = st.store := by
  intro ks
  induction ks with
  | nil => intro st; rfl
  | cons k ks ih =>
    intro st
    simp only [Manager.reconcileEntries]
    rw [ih, reconcileOne_store]

theorem reconcileEntries_timers (env : Env) (records : List GuardRecord) :
    ∀ (ks : List Nat) (st : ManagerState),
      (Manager.reconcileEntries env records ks st).1.timers = st.timers := by
  intro ks
  induction ks with
  | nil => intro st; rfl
  | cons k ks ih =>
    intro st
    simp only [Manager.reconcileEntries]
    rw [ih, reconcileOne_timers]

theorem createEntryIfNotExists_store (env : Env) (r : GuardRecord) (st : ManagerState) :
    (Manager.createEntryIfNotExists env r st).1.store = st.store := by
  simp only [Manager.createEntryIfNotExists]
  split
  · rfl
  · exact createEntryForRecord_store _ _ _ _

theorem createEntryIfNotExists_timers (env : Env) (r : GuardRecord) (st : ManagerState) :
    (Manager.createEntryIfNotExists env r st).1.timers = st.timers := by
  simp only [Manager.createEntryIfNotExists]
  split
  · rfl
  · exact createEntryForRecord_timers _ _ _ _

theorem createEntriesForRecords_store (env : Env) :
    ∀ (rs : List GuardRecord) (st : ManagerState),
      (Manager.createEntriesForRecords env rs st).1.store = st.store := by
  intro rs
  induction rs with
  | nil => intro st; rfl
  | cons r rs ih =>
    intro st
    simp only [Manager.createEntriesForRecords]
    rw [ih, createEntryIfNotExists_store]

theorem createEntriesForRecords_timers (env : Env) :
    ∀ (rs : List GuardRecord) (st : ManagerState),
      (Manager.createEntriesForRecords env rs st).1.timers = st.timers := by
  intro rs
  induction rs with
  | nil => intro st; rfl
  | cons r rs ih =>
    intro st
    simp only [Manager.createEntriesForRecords]
    rw [ih, createEntryIfNotExists_timers]

theorem cleanupEcoCoresGo_entries :
    ∀ (cores : List EntityPath) (st : ManagerState) (u : Bool),
      (Manager.cleanupEcoCoresGo cores st u).1.entries = st.entries := by
  intro cores
  induction cores with
  | nil => intro st u; rfl
  | cons c cs ih =>
    intro st u
    simp only [Manager.cleanupEcoCoresGo]
    split
    · exact ih st u
    · rw [ih, updateEcoCoresList_entries]

theorem cleanupEcoCoresGo_store :
    ∀ (cores : List EntityPath) (st : ManagerState) (u : Bool),
      (Manager.cleanupEcoCoresGo cores st u).1.store = st.store := by
  intro cores
  induction cores with
  | nil => intro st u; rfl
  | cons c cs ih =>
    intro st u
    simp only [Manager.cleanupEcoCoresGo]
    split
    · exact ih st u
    · rw [ih, updateEcoCoresList_store]

theorem cleanupEcoCoresGo_timers :
    ∀ (cores : List EntityPath) (st : ManagerState) (u : Bool),
      (Manager.cleanupEcoCoresGo cores st u).1.timers = st.timers := by
  intro cores
  induction cores with
  | nil => intro st u; rfl
  | cons c cs ih =>
    intro st u
    simp only [Manager.cleanupEcoCoresGo]
    split
    · exact ih st u
    · rw [ih, updateEcoCoresList_timers]

theorem cleanupPersistedEcoCores_entries (st : ManagerState) :
    (Manager.cleanupPersistedEcoCores st).1.entries = st.entries := by
  simp only [Manager.cleanupPersistedEcoCores]
  split
  · rfl
  · split <;> rw [cleanupEcoCoresGo_entries]

theorem cleanupPersistedEcoCores_store (st : ManagerState) :
    (Manager.cleanupPersistedEcoCores st).1.store = st.store := by
  simp only [Manager.cleanupPersistedEcoCores]
  split
  · rfl
  · split <;> rw [cleanupEcoCoresGo_store]

theorem cleanupPersistedEcoCores_timers (st : ManagerState) :
    (Manager.cleanupPersistedEcoCores st).1.timers = st.timers := by
  simp only [Manager.cleanupPersistedEcoCores]
  split
  · rfl
  · split <;> rw [cleanupEcoCoresGo_timers]

theorem resolveAllGo_false_store :
    ∀ (ks : List Nat) (st : ManagerState),
      (Manager.resolveAllGo false ks st).1.store = st.store := by
  intro ks
  induction ks with
  | nil => intro st; rfl
  | cons k ks ih =>
    intro st
    simp only [Manager.resolveAllGo]
    rw [ih, resolveEntry_false_store]

theorem resolveAllGo_timers (clearRecord : Bool) :
    ∀ (ks : List Nat) (st : ManagerState),
      (Manager.resolveAllGo clearRecord ks st).1.timers = st.timers := by
  intro ks
  induction ks with
  | nil => intro st; rfl
  | cons k ks ih =>
    intro st
    simp only [Manager.resolveAllGo]
    rw [ih, resolveEntry_timers]

theorem resolveAllEntries_false_store (st : ManagerState) :
    (Manager.resolveAllEntries false st).1.store = st.store :=
  resolveAllGo_false_store _ _

theorem resolveAllEntries_timers (clearRecord : Bool) (st : ManagerState) :
    (Manager.resolveAllEntries clearRecord st).1.timers = st.timers :=
  resolveAllGo_timers _ _ _

theorem handleHostIsolatedHardwares_store (env : Env) (st : ManagerState) :
    (Manager.handleHostIsolatedHardwares env st).1.store = st.store := by
  simp only [Manager.handleHostIsolatedHardwares]
  split
  · simp [resolveAllEntries_false_store]
  · rw [cleanupPersistedEcoCores_store, createEntriesForRecords_store,
      reconcileEntries_store]

theorem handleHostIsolatedHardwares_timers (env : Env) (st : ManagerState) :
    (Manager.handleHostIsolatedHardwares env st).1.timers = st.timers - 1 := by
  simp only [Manager.handleHostIsolatedHardwares]
  split
  · simp [resolveAllEntries_timers]
  · rw [cleanupPersistedEcoCores_timers, createEntriesForRecords_timers,
      reconcileEntries_timers]

/-! ### Eco-core cleanup characterization -/

theorem cleanupEcoCoresGo_ecoCores (E : List (Nat × Entry)) :
    ∀ (cores : List EntityPath) (st : ManagerState), st.entries = E → ∀ (u : Bool),
      (Manager.cleanupEcoCoresGo cores st u).1.ecoCores =
        cores.foldl (fun s p =>
          if E.any (fun q => decide (q.2.entityPath = p)) then s else setErase p s)
          st.ecoCores := by
  intro cores
  induction cores with
  | nil => intro st hE u; rfl
  | cons c cs ih =>
    intro st hE u
    simp only [Manager.cleanupEcoCoresGo, List.foldl_cons]
    subst hE
    split
    · exact ih st rfl u
    · rw [ih _ (by rw [updateEcoCoresList_entries]) true]
      rfl

theorem cleanupEcoCoresGo_upd (E : List (Nat × Entry)) :
    ∀ (cores : List EntityPath) (st : ManagerState), st.entries = E → ∀ (u : Bool),
      (Manager.cleanupEcoCoresGo cores st u).2.2 =
        (u || cores.any (fun p => !(E.any (fun q => decide (q.2.entityPath = p))))) := by
  intro cores
  induction cores with
  | nil => intro st hE u; simp [Manager.cleanupEcoCoresGo]
  | cons c cs ih =>
    intro st hE u
    simp only [Manager.cleanupEcoCoresGo, List.any_cons]
    subst hE
    split
    · next h =>
      rw [ih st rfl u]
      simp [h]
    · next h =>
      rw [ih _ (by rw [updateEcoCoresList_entries]) true]
      simp [h, Bool.eq_false_iff.mpr h]

theorem cleanupEcoCoresGo_serialize_mem (E : List (Nat × Entry)) :
    ∀ (cores : List EntityPath) (st : ManagerState), st.entries = E → ∀ (u : Bool),
      (Effect.serializedEcoCores ∈ (Manager.cleanupEcoCoresGo cores st u).2.1 ↔
        cores.any (fun p => !(E.any (fun q => decide (q.2.entityPath = p)))) = true) := by
  intro cores
  induction cores with
  | nil => intro st hE u; simp [Manager.cleanupEcoCoresGo]
  | cons c cs ih =>
    intro st hE u
    simp only [Manager.cleanupEcoCoresGo, List.any_cons]
    subst hE
    split
    · next h =>
      rw [ih st rfl u]
      simp [h]
    · next h =>
      have := ih (Manager.updateEcoCoresList false c st).1
        (by rw [updateEcoCoresList_entries]) true
      simp only [Manager.updateEcoCoresList] at this ⊢
      simp [this, Bool.eq_false_iff.mpr h]

theorem foldl_setErase_filter (P : EntityPath → Bool) :
    ∀ (cores s : List EntityPath), (∀ p ∈ s, P p = false → p ∈ cores) →
      cores.foldl (fun acc p => if P p then acc else setErase p acc) s =
        s.filter P := by
  intro cores
  induction cores with
  | nil =>
    intro s hs
    simp only [List.foldl_nil]
    symm
    refine List.filter_eq_self.mpr (fun p hp => ?_)
    by_contra hP
    exact absurd (hs p hp (Bool.eq_false_iff.mpr hP)) (List.not_mem_nil p)
  | cons c cs ih =>
    intro s hs
    simp only [List.foldl_cons]
    by_cases hc : P c = true
    · rw [if_pos hc, ih s]
      intro p hp hP
      rcases List.mem_cons.mp (hs p hp hP) with h | h
      · subst h
        simp [hc] at hP
      · exact h
    · rw [if_neg hc]
      have hsub : ∀ p ∈ setErase c s, P p = false → p ∈ cs := by
        intro p hp hP
        have hps : p ∈ s := List.mem_of_mem_filter hp
        have hpc : p ≠ c := by simpa using List.of_mem_filter hp
        rcases List.mem_cons.mp (hs p hps hP) with h | h
        · exact absurd h hpc
        · exact h
      rw [ih (setErase c s) hsub]
      have hne : ∀ p ∈ s, P p = true → p ≠ c := by
        intro p hp hP hpc
        subst hpc
        exact hc hP
      unfold setErase
      rw [List.filter_filter]
      refine List.filter_congr (fun p hp => ?_)
      by_cases hP : P p = true
      · simp [hP, hne p hp hP]
      · have hP' : P p = false := by simpa using hP
        simp [hP']

/-! ### Full-reset (`resolveAllEntries(false)`) characterization -/

theorem resolveEntry_false_eq (k : Nat) (st : ManagerState) :
    Entry.resolveEntry false k st =
      match mapFind? k st.entries with
      | none => (st, [])
      | some e =>
        if e.resolved then (st, [])
        else ({ st with entries := mapErase k st.entries,
                        ecoCores := setErase e.entityPath st.ecoCores },
              [Effect.resolvedEntry k false, Effect.serializedEcoCores]) := by
  simp only [Entry.resolveEntry]
  cases h : mapFind? k st.entries with
  | none => rfl
  | some e =>
    by_cases hr : e.resolved
    · simp [hr]
    · simp [hr, Manager.eraseEntry, h, Manager.updateEcoCoresList]

theorem keyResolveTrace_congr {E₁ E₂ : List (Nat × Entry)} :
    ∀ {ks : List Nat}, (∀ k ∈ ks, mapFind? k E₁ = mapFind? k E₂) →
      keyResolveTrace E₁ ks = keyResolveTrace E₂ ks := by
  intro ks
  induction ks with
  | nil => intro _; rfl
  | cons k ks ih =>
    intro h
    simp only [keyResolveTrace]
    rw [h k (List.mem_cons_self k ks), ih (fun k' hk' => h k' (List.mem_cons_of_mem k hk'))]

theorem resolveAllGo_false_spec :
    ∀ (ks : List Nat), ks.Nodup → ∀ (st : ManagerState),
      (Manager.resolveAllGo false ks st).2 = keyResolveTrace st.entries ks ∧
      (∀ k', k' ∉ ks →
        mapFind? k' (Manager.resolveAllGo false ks st).1.entries =
          mapFind? k' st.entries) := by
  intro ks
  induction ks with
  | nil => exact fun _ st => ⟨rfl, fun _ _ => rfl⟩
  | cons k ks ih =>
    intro hnd st
    have hndk : k ∉ ks := (List.nodup_cons.mp hnd).1
    have hndks : ks.Nodup := (List.nodup_cons.mp hnd).2
    simp only [Manager.resolveAllGo, keyResolveTrace, resolveEntry_false_eq k st]
    cases h : mapFind? k st.entries with
    | none =>
      simp only []
      obtain ⟨hfx, hpres⟩ := ih hndks st
      refine ⟨by rw [hfx, List.nil_append], fun k' hk' => ?_⟩
      exact hpres k' (fun hc => hk' (List.mem_cons_of_mem k hc))
    | some e =>
      by_cases hr : e.resolved
      · simp only [if_pos hr]
        obtain ⟨hfx, hpres⟩ := ih hndks st
        refine ⟨by rw [hfx, List.nil_append], fun k' hk' => ?_⟩
        exact hpres k' (fun hc => hk' (List.mem_cons_of_mem k hc))
      · simp only [if_neg hr]
        set stE : ManagerState :=
          { st with entries := mapErase k st.entries,
                    ecoCores := setErase e.entityPath st.ecoCores } with hstE
        obtain ⟨hfx, hpres⟩ := ih hndks stE
        have hEq : keyResolveTrace stE.entries ks = keyResolveTrace st.entries ks := by
          refine keyResolveTrace_congr (fun k' hk' => ?_)
          have hne : k' ≠ k := fun hc => hndk (hc ▸ hk')
          show mapFind? k' (mapErase k st.entries) = mapFind? k' st.entries
          exact mapFind?_mapErase_of_ne hne
        constructor
        · rw [hfx, hEq]
        · intro k' hk'
          have hne : k' ≠ k := fun hc => hk' (hc ▸ List.mem_cons_self k ks)
          rw [hpres k' (fun hc => hk' (List.mem_cons_of_mem k hc))]
          show mapFind? k' (mapErase k st.entries) = mapFind? k' st.entries
          exact mapFind?_mapErase_of_ne hne

theorem keyResolveTrace_self :
    ∀ (l : List (Nat × Entry)), (l.map Prod.fst).Nodup →
      keyResolveTrace l (l.map Prod.fst) = resolveTrace l := by
  intro l
  induction l with
  | nil => intro _; rfl
  | cons p rest ih =>
    intro hnd
    obtain ⟨k, e⟩ := p
    simp only [List.map_cons, keyResolveTrace, resolveTrace, mapFind?, if_pos rfl,
      eq_self_iff_true, if_true]
    have hndk : k ∉ rest.map Prod.fst := (List.nodup_cons.mp hnd).1
    have hndr : (rest.map Prod.fst).Nodup := (List.nodup_cons.mp hnd).2
    have hcongr : keyResolveTrace ((k, e) :: rest) (rest.map Prod.fst) =
        keyResolveTrace rest (rest.map Prod.fst) := by
      refine keyResolveTrace_congr (fun k' hk' => ?_)
      have hne : k' ≠ k := fun hc => hndk (hc ▸ hk')
      simp [mapFind?, hne]
    rw [hcongr, ih hndr]

theorem resolveTrace_pure :
    ∀ (l : List (Nat × Entry)) (eff : Effect), eff ∈ resolveTrace l →
      (∃ k, eff = Effect.resolvedEntry k false) ∨ eff = Effect.serializedEcoCores := by
  intro l
  induction l with
  | nil => intro eff h; simp [resolveTrace] at h
  | cons p rest ih =>
    intro eff h
    obtain ⟨k, e⟩ := p
    simp only [resolveTrace, List.mem_append] at h
    rcases h with h | h
    · by_cases hr : e.resolved
      · rw [if_pos hr] at h
        simp at h
      · rw [if_neg hr] at h
        rcases List.mem_cons.mp h with h | h
        · exact Or.inl ⟨k, h⟩
        · rcases List.mem_cons.mp h with h | h
          · exact Or.inr h
          · simp at h
    · exact ih eff h

theorem storeClear_append_fresh {n : Nat} {s : List GuardRecord}
    (h : ∀ r ∈ s, r.recordId ≠ n) {rec : GuardRecord} (hrec : rec.recordId = n) :
    storeClear n (s ++ [rec]) = s := by
  unfold storeClear
  rw [List.filter_append]
  have h1 : s.filter (fun r => decide (r.recordId ≠ n)) = s :=
    List.filter_eq_self.mpr (fun r hr => by simpa using h r hr)
  have h2 : [rec].filter (fun r => decide (r.recordId ≠ n)) = [] := by
    simp [List.filter_cons, hrec]
  rw [h1, h2, List.append_nil]

/-! ### Idempotence machinery: the per-entry diff -/

theorem reconcileOne_none (env : Env) (records : List GuardRecord) (k : Nat)
    (st : ManagerState) (h : mapFind? k st.entries = none) :
    Manager.reconcileOne env records k st = (st, []) := by
  simp [Manager.reconcileOne, h]

theorem reconcileOne_dispatch (env : Env) (records : List GuardRecord) (k : Nat)
    (st : ManagerState) (e : Entry) (hfind : mapFind? k st.entries = some e) :
    (validMatches records e.entityPath = [] ∧
      Manager.reconcileOne env records k st = Entry.resolveEntry false k st) ∨
    (∃ r, validMatches records e.entityPath = [r] ∧
      Manager.reconcileOne env records k st = Manager.updateEntryForRecord env r k st) ∨
    (2 ≤ (validMatches records e.entityPath).length ∧
      Manager.reconcileOne env records k st = (st, [Effect.consistencyViolation e.entityPath])) := by
  unfold validMatches
  rcases hv : (records.filter (fun r => decide (e.entityPath = r.targetId))).filter
      (fun r => Manager.isValidRecord r.recordId) with _ | ⟨a, _ | ⟨b, t⟩⟩
  · rcases he : records.filter (fun r => decide (e.entityPath = r.targetId)) with _ | ⟨c, er⟩
    · refine Or.inl ⟨hv, ?_⟩
      simp only [Manager.reconcileOne, hfind]
      rw [hv, he]
    · refine Or.inl ⟨hv, ?_⟩
      simp only [Manager.reconcileOne, hfind]
      rw [hv, he]
  · rcases he : records.filter (fun r => decide (e.entityPath = r.targetId)) with _ | ⟨c, er⟩
    · rw [he] at hv
      simp at hv
    · refine Or.inr (Or.inl ⟨a, hv, ?_⟩)
      simp only [Manager.reconcileOne, hfind]
      rw [hv, he]
  · rcases he : records.filter (fun r => decide (e.entityPath = r.targetId)) with _ | ⟨c, er⟩
    · rw [he] at hv
      simp at hv
    · refine Or.inr (Or.inr ⟨by rw [hv]; simp, ?_⟩)
      simp only [Manager.reconcileOne, hfind]
      rw [hv, he]

theorem updateEntryForRecord_fix (env : Env) (r : GuardRecord) (k : Nat)
    (st : ManagerState) (e : Entry) (hfind : mapFind? k st.entries = some e)
    (hfix : UpdateFix env r e) :
    (Manager.updateEntryForRecord env r k st).1.entries = st.entries ∧
    ∀ eff ∈ (Manager.updateEntryForRecord env r k st).2,
      entryMutEffect eff = false := by
  unfold UpdateFix at hfix
  rcases hinv : env.getInventoryPath r.targetId false with _ | ⟨invPath, g⟩
  · simp only [Manager.updateEntryForRecord, hfind, hinv]
    exact ⟨trivial, by simp [entryMutEffect]⟩
  · rcases hbmc : env.getBMCLogPath r.elogId with _ | bmcPath
    · simp only [Manager.updateEntryForRecord, hfind, hinv, hbmc]
      refine ⟨updateEcoCoresList_entries _ _ _, ?_⟩
      simp [Manager.updateEcoCoresList, entryMutEffect]
    · rcases hsev : env.getEntrySeverityType r.errType with _ | sev
      · simp only [Manager.updateEntryForRecord, hfind, hinv, hbmc, hsev]
        refine ⟨updateEcoCoresList_entries _ _ _, ?_⟩
        simp [Manager.updateEcoCoresList, entryMutEffect]
      · simp only [hinv, hbmc, hsev] at hfix
        simp only [Manager.updateEntryForRecord, hfind, hinv, hbmc, hsev,
          applyEntryUpdate_noop env sev _ e hfix.1 hfix.2]
        constructor
        · show mapSet k e _ = st.entries
          exact mapFind?_mapSet_cancel hfind
        · simp [Manager.updateEcoCoresList, entryMutEffect]

theorem updateEntryForRecord_establish (env : Env) (r : GuardRecord) (k : Nat)
    (st : ManagerState) (e : Entry) (hfind : mapFind? k st.entries = some e) :
    ∀ k' e', mapFind? k' (Manager.updateEntryForRecord env r k st).1.entries = some e' →
      (k' ≠ k ∧ mapFind? k' st.entries = some e') ∨
      (k' = k ∧ UpdateFix env r e' ∧ e'.entityPath = e.entityPath) := by
  rcases hinv : env.getInventoryPath r.targetId false with _ | ⟨invPath, g⟩
  · simp only [Manager.updateEntryForRecord, hfind, hinv]
    intro k' e' h
    by_cases hk : k' = k
    · subst hk
      rw [hfind, Option.some.injEq] at h
      refine Or.inr ⟨rfl, ?_, by rw [← h]⟩
      unfold UpdateFix
      rw [hinv]
      trivial
    · exact Or.inl ⟨hk, h⟩
  · rcases hbmc : env.getBMCLogPath r.elogId with _ | bmcPath
    · simp only [Manager.updateEntryForRecord, hfind, hinv, hbmc]
      intro k' e' h
      rw [updateEcoCoresList_entries] at h
      by_cases hk : k' = k
      · subst hk
        rw [hfind, Option.some.injEq] at h
        refine Or.inr ⟨rfl, ?_, by rw [← h]⟩
        unfold UpdateFix
        rw [hinv, hbmc]
        trivial
      · exact Or.inl ⟨hk, h⟩
    · rcases hsev : env.getEntrySeverityType r.errType with _ | sev
      · simp only [Manager.updateEntryForRecord, hfind, hinv, hbmc, hsev]
        intro k' e' h
        rw [updateEcoCoresList_entries] at h
        by_cases hk : k' = k
        · subst hk
          rw [hfind, Option.some.injEq] at h
          refine Or.inr ⟨rfl, ?_, by rw [← h]⟩
          unfold UpdateFix
          rw [hinv, hbmc, hsev]
          trivial
        · exact Or.inl ⟨hk, h⟩
      · simp only [Manager.updateEntryForRecord, hfind, hinv, hbmc, hsev]
        intro k' e' h
        by_cases hk : k' = k
        · subst hk
          rw [show ((Manager.updateEcoCoresList g r.targetId st).1.entries) = st.entries
              from rfl, mapFind?_mapSet_self hfind, Option.some.injEq] at h
          subst h
          refine Or.inr ⟨rfl, ?_, applyEntryUpdate_entityPath env sev _ e⟩
          unfold UpdateFix
          rw [hinv, hbmc, hsev]
          exact ⟨applyEntryUpdate_severity env sev _ e,
            applyEntryUpdate_associations env sev _ e⟩
        · rw [show ((Manager.updateEcoCoresList g r.targetId st).1.entries) = st.entries
              from rfl, mapFind?_mapSet_of_ne hk] at h
          exact Or.inl ⟨hk, h⟩

theorem reconcileOne_fix (env : Env) (records : List GuardRecord) (k : Nat)
    (st : ManagerState)
    (hOK : ∀ e, mapFind? k st.entries = some e → EntryOK env records e) :
    (Manager.reconcileOne env records k st).1.entries = st.entries ∧
    ∀ eff ∈ (Manager.reconcileOne env records k st).2,
      entryMutEffect eff = false := by
  cases hfind : mapFind? k st.entries with
  | none =>
    rw [reconcileOne_none env records k st hfind]
    exact ⟨rfl, by simp⟩
  | some e =>
    have hok := hOK e hfind
    rcases reconcileOne_dispatch env records k st e hfind with
      ⟨hvm, heq⟩ | ⟨r, hvm, heq⟩ | ⟨hvm, heq⟩
    · rcases hok with h2 | ⟨r, hr, _⟩ | ⟨hres, _⟩
      · rw [hvm] at h2
        simp at h2
      · rw [hvm] at hr
        cases hr
      · simp only [heq, resolveEntry_false_eq, hfind]
        rw [if_pos hres]
        exact ⟨rfl, by simp⟩
    · rcases hok with h2 | ⟨r', hr', hfix⟩ | ⟨hres, hnil⟩
      · rw [hvm] at h2
        simp at h2
      · rw [hvm, List.cons.injEq] at hr'
        rw [heq]
        exact updateEntryForRecord_fix env r k st e hfind (hr'.1 ▸ hfix)
      · rw [hvm] at hnil
        cases hnil
    · rw [heq]
      exact ⟨rfl, by simp [entryMutEffect]⟩

theorem reconcileEntries_fix (env : Env) (records : List GuardRecord) :
    ∀ (ks : List Nat) (st : ManagerState),
      (∀ k e, mapFind? k st.entries = some e → EntryOK env records e) →
      (Manager.reconcileEntries env records ks st).1.entries = st.entries ∧
      ∀ eff ∈ (Manager.reconcileEntries env records ks st).2,
        entryMutEffect eff = false := by
  intro ks
  induction ks with
  | nil => exact fun st _ => ⟨rfl, by simp [Manager.reconcileEntries]⟩
  | cons k ks ih =>
    intro st h
    obtain ⟨hent, hfx⟩ := reconcileOne_fix env records k st (h k)
    obtain ⟨hent', hfx'⟩ := ih (Manager.reconcileOne env records k st).1
      (fun k' e hf => h k' e (by rw [← hent]; exact hf))
    constructor
    · show (Manager.reconcileEntries env records ks
        (Manager.reconcileOne env records k st).1).1.entries = st.entries
      rw [hent', hent]
    · intro eff hmem
      rcases List.mem_append.mp hmem with hm | hm
      · exact hfx eff hm
      · exact hfx' eff hm

theorem reconcileOne_establish (env : Env) (records : List GuardRecord) (k : Nat)
    (st : ManagerState) :
    ∀ k' e', mapFind? k' (Manager.reconcileOne env records k st).1.entries = some e' →
      EntryOK env records e' ∨ (k' ≠ k ∧ mapFind? k' st.entries = some e') := by
  cases hfind : mapFind? k st.entries with
  | none =>
    rw [reconcileOne_none env records k st hfind]
    intro k' e' h
    by_cases hk : k' = k
    · subst hk
      rw [hfind] at h
      cases h
    · exact Or.inr ⟨hk, h⟩
  | some e =>
    rcases reconcileOne_dispatch env records k st e hfind with
      ⟨hvm, heq⟩ | ⟨r, hvm, heq⟩ | ⟨hvm, heq⟩
    · simp only [heq, resolveEntry_false_eq, hfind]
      by_cases hres : e.resolved
      · rw [if_pos hres]
        intro k' e' h
        by_cases hk : k' = k
        · subst hk
          rw [hfind, Option.some.injEq] at h
          subst h
          exact Or.inl (Or.inr (Or.inr ⟨hres, hvm⟩))
        · exact Or.inr ⟨hk, h⟩
      · rw [if_neg hres]
        intro k' e' h
        replace h : mapFind? k' (mapErase k st.entries) = some e' := h
        by_cases hk : k' = k
        · subst hk
          rw [mapFind?_mapErase_self] at h
          cases h
        · rw [mapFind?_mapErase_of_ne hk] at h
          exact Or.inr ⟨hk, h⟩
    · rw [heq]
      intro k' e' h
      rcases updateEntryForRecord_establish env r k st e hfind k' e' h with
        ⟨hk, hf⟩ | ⟨hk, hfix, hpath⟩
      · exact Or.inr ⟨hk, hf⟩
      · refine Or.inl (Or.inr (Or.inl ⟨r, ?_, hfix⟩))
        rw [hpath]
        exact hvm
    · rw [heq]
      intro k' e' h
      by_cases hk : k' = k
      · subst hk
        rw [hfind, Option.some.injEq] at h
        subst h
        exact Or.inl (Or.inl hvm)
      · exact Or.inr ⟨hk, h⟩

theorem reconcileEntries_establish (env : Env) (records : List GuardRecord) :
    ∀ (ks : List Nat) (st : ManagerState),
      (∀ k e, mapFind? k st.entries = some e → EntryOK env records e ∨ k ∈ ks) →
      ∀ k e, mapFind? k (Manager.reconcileEntries env records ks st).1.entries = some e →
        EntryOK env records e := by
  intro ks
  induction ks with
  | nil =>
    intro st h k e hf
    rcases h k e hf with hok | hc
    · exact hok
    · simp at hc
  | cons k₀ ks ih =>
    intro st h k e hf
    refine ih (Manager.reconcileOne env records k₀ st).1 ?_ k e hf
    intro k' e' hf'
    rcases reconcileOne_establish env records k₀ st k' e' hf' with hok | ⟨hk, hold⟩
    · exact Or.inl hok
    · rcases h k' e' hold with hok | hc
      · exact Or.inl hok
      · rcases List.mem_cons.mp hc with hc | hc
        · exact absurd hc hk
        · exact Or.inr hc

/-! ### Idempotence machinery: the unmatched-record creation step -/

theorem createEntryForRecord_runtime_cases (env : Env) (r : GuardRecord)
    (st : ManagerState) :
    ((Manager.createEntryForRecord env r false st).1.entries = st.entries ∧
      CreateFails env r) ∨
    (∃ invPath g bmcPath sev,
      env.getInventoryPath r.targetId false = some (invPath, g) ∧
      env.getBMCLogPath r.elogId = some bmcPath ∧
      env.getEntrySeverityType r.errType = some sev ∧
      env.entryCtorOk r.recordId = true ∧
      (Manager.createEntryForRecord env r false st).1.entries =
        mapInsert r.recordId
          { recordId := r.recordId, severity := sev,
            resolved := decide (r.recordId = 0xFFFFFFFF),
            associations := Manager.buildAssociations invPath bmcPath,
            entityPath := r.targetId, elapsed := env.time } st.entries) := by
  rcases hinv : env.getInventoryPath r.targetId false with _ | ⟨invPath, g⟩
  · refine Or.inl ⟨?_, Or.inl hinv⟩
    simp [Manager.createEntryForRecord, hinv]
  · rcases hbmc : env.getBMCLogPath r.elogId with _ | bmcPath
    · refine Or.inl ⟨?_, Or.inr (Or.inl hbmc)⟩
      simp [Manager.createEntryForRecord, Manager.updateEcoCoresList, hinv, hbmc]
    · rcases hsev : env.getEntrySeverityType r.errType with _ | sev
      · refine Or.inl ⟨?_, Or.inr (Or.inr (Or.inl hsev))⟩
        simp [Manager.createEntryForRecord, Manager.updateEcoCoresList,
          hinv, hbmc, hsev]
      · rcases hctor : env.entryCtorOk r.recordId with _ | _
        · refine Or.inl ⟨?_, Or.inr (Or.inr (Or.inr hctor))⟩
          simp [Manager.createEntryForRecord, Manager.createEntry,
            Manager.updateEcoCoresList, hinv, hbmc, hsev, hctor]
        · refine Or.inr ⟨invPath, g, bmcPath, sev, rfl, rfl, rfl, rfl, ?_⟩
          simp [Manager.createEntryForRecord, Manager.createEntry,
            Manager.updateEcoCoresList, hinv, hbmc, hsev, hctor]

theorem createEntryForRecord_effects (env : Env) (r : GuardRecord) (b : Bool)
    (st : ManagerState) :
    ∀ eff ∈ (Manager.createEntryForRecord env r b st).2,
      entryMutEffect eff = false := by
  simp only [Manager.createEntryForRecord, Manager.createEntry,
    Manager.updateEcoCoresList]
  repeat' split
  all_goals simp [entryMutEffect]

theorem createEntryForRecord_noinsert (env : Env) (r : GuardRecord)
    (st : ManagerState)
    (h : CreateFails env r ∨ insertInert r.recordId st.entries) :
    (Manager.createEntryForRecord env r false st).1.entries = st.entries := by
  rcases createEntryForRecord_runtime_cases env r st with ⟨heq, _⟩ |
    ⟨inv, g, bmc, sev, hinv, hbmc, hsev, hctor, heq⟩
  · exact heq
  · rcases h with hfail | hinert
    · rcases hfail with hf | hf | hf | hf
      · rw [hinv] at hf
        cases hf
      · rw [hbmc] at hf
        cases hf
      · rw [hsev] at hf
        cases hf
      · rw [hctor] at hf
        cases hf
    · rw [heq]
      exact hinert _

theorem createEntryIfNotExists_fix (env : Env) (r : GuardRecord)
    (st : ManagerState) (hok : RecordOK env st.entries r) :
    (Manager.createEntryIfNotExists env r st).1.entries = st.entries ∧
    ∀ eff ∈ (Manager.createEntryIfNotExists env r st).2,
      entryMutEffect eff = false := by
  simp only [Manager.createEntryIfNotExists]
  split
  · exact ⟨rfl, by simp⟩
  · next hguard =>
    refine ⟨?_, createEntryForRecord_effects env r false st⟩
    rcases hok with ⟨q, hq, hpath⟩ | h | h
    · exact absurd (List.any_eq_true.mpr ⟨q, hq, by simp [hpath]⟩) hguard
    · exact createEntryForRecord_noinsert env r st (Or.inl h)
    · exact createEntryForRecord_noinsert env r st (Or.inr h)

theorem createEntriesForRecords_fix (env : Env) :
    ∀ (rs : List GuardRecord) (st : ManagerState),
      (∀ r ∈ rs, RecordOK env st.entries r) →
      (Manager.createEntriesForRecords env rs st).1.entries = st.entries ∧
      ∀ eff ∈ (Manager.createEntriesForRecords env rs st).2,
        entryMutEffect eff = false := by
  intro rs
  induction rs with
  | nil => exact fun st _ => ⟨rfl, by simp [Manager.createEntriesForRecords]⟩
  | cons r rs ih =>
    intro st h
    obtain ⟨hent, hfx⟩ := createEntryIfNotExists_fix env r st
      (h r (List.mem_cons_self r rs))
    obtain ⟨hent', hfx'⟩ := ih (Manager.createEntryIfNotExists env r st).1
      (fun r' hr' => by rw [hent]; exact h r' (List.mem_cons_of_mem r hr'))
    constructor
    · show (Manager.createEntriesForRecords env rs
        (Manager.createEntryIfNotExists env r st).1).1.entries = st.entries
      rw [hent', hent]
    · intro eff hmem
      rcases List.mem_append.mp hmem with hm | hm
      · exact hfx eff hm
      · exact hfx' eff hm

theorem createdEntry_entryOK (env : Env) (records : List GuardRecord)
    (r : GuardRecord) (invPath : String) (g : Bool) (bmcPath : String)
    (sev : EntrySeverity) (hr : r ∈ records)
    (hvalid : Manager.isValidRecord r.recordId = true)
    (hinv : env.getInventoryPath r.targetId false = some (invPath, g))
    (hbmc : env.getBMCLogPath r.elogId = some bmcPath)
    (hsev : env.getEntrySeverityType r.errType = some sev) :
    EntryOK env records
      { recordId := r.recordId, severity := sev,
        resolved := decide (r.recordId = 0xFFFFFFFF),
        associations := Manager.buildAssociations invPath bmcPath,
        entityPath := r.targetId, elapsed := env.time } := by
  have hmem : r ∈ validMatches records r.targetId := by
    unfold validMatches
    exact List.mem_filter.mpr ⟨List.mem_filter.mpr ⟨hr, by simp⟩, hvalid⟩
  unfold EntryOK
  rcases hv : validMatches records r.targetId with _ | ⟨a, _ | ⟨b, t⟩⟩
  · rw [hv] at hmem
    cases hmem
  · rw [hv] at hmem
    have hra : a = r := by
      rcases List.mem_cons.mp hmem with hc | hc
      · exact hc.symm
      · cases hc
    subst hra
    refine Or.inr (Or.inl ⟨a, rfl, ?_⟩)
    unfold UpdateFix
    rw [hinv, hbmc, hsev]
    exact ⟨rfl, rfl⟩
  · exact Or.inl (by simp)

theorem createEntryIfNotExists_establish_self (env : Env) (r : GuardRecord)
    (st : ManagerState) :
    RecordOK env (Manager.createEntryIfNotExists env r st).1.entries r := by
  simp only [Manager.createEntryIfNotExists]
  split
  · next hguard =>
    obtain ⟨q, hq, hpath⟩ := List.any_eq_true.mp hguard
    exact Or.inl ⟨q, hq, by simpa using (of_decide_eq_true hpath).symm⟩
  · rcases createEntryForRecord_runtime_cases env r st with ⟨heq, hfail⟩ |
      ⟨inv, g, bmc, sev, _, _, _, _, heq⟩
    · rw [heq]
      exact Or.inr (Or.inl hfail)
    · rw [heq]
      rcases mapInsert_mem_or r.recordId _ st.entries with hnoop | hmem
      · rw [hnoop]
        exact Or.inr (Or.inr (fun v => mapInsert_noop_indep hnoop v))
      · exact Or.inl ⟨_, hmem, rfl⟩

theorem createEntryIfNotExists_persist (env : Env) (r r' : GuardRecord)
    (st : ManagerState) (hok : RecordOK env st.entries r') :
    RecordOK env (Manager.createEntryIfNotExists env r st).1.entries r' := by
  simp only [Manager.createEntryIfNotExists]
  split
  · exact hok
  · rcases createEntryForRecord_runtime_cases env r st with ⟨heq, _⟩ |
      ⟨inv, g, bmc, sev, _, _, _, _, heq⟩
    · rw [heq]
      exact hok
    · rw [heq]
      rcases hok with ⟨q, hq, hp⟩ | hf | hinert
      · exact Or.inl ⟨q, mem_mapInsert_of_mem hq, hp⟩
      · exact Or.inr (Or.inl hf)
      · by_cases hkey : r.recordId = r'.recordId
        · rw [hkey, hinert _]
          exact Or.inr (Or.inr hinert)
        · exact Or.inr (Or.inr (fun v =>
            mapInsert_noop_persist hkey (hinert v)))

theorem createEntryIfNotExists_entryOK (env : Env) (records : List GuardRecord)
    (r : GuardRecord) (st : ManagerState) (hr : r ∈ records)
    (hvalid : Manager.isValidRecord r.recordId = true)
    (hOK : ∀ k e, mapFind? k st.entries = some e → EntryOK env records e) :
    ∀ k e, mapFind? k (Manager.createEntryIfNotExists env r st).1.entries = some e →
      EntryOK env records e := by
  simp only [Manager.createEntryIfNotExists]
  split
  · exact hOK
  · rcases createEntryForRecord_runtime_cases env r st with ⟨heq, _⟩ |
      ⟨inv, g, bmc, sev, hinv, hbmc, hsev, _, heq⟩
    · rw [heq]
      exact hOK
    · rw [heq]
      intro k e hf
      by_cases hk : k = r.recordId
      · subst hk
        rcases mapInsert_find_or r.recordId _ st.entries with hfind | hnoop
        · rw [hfind, Option.some.injEq] at hf
          rw [← hf]
          exact createdEntry_entryOK env records r inv g bmc sev hr hvalid
            hinv hbmc hsev
        · rw [hnoop] at hf
          exact hOK _ _ hf
      · rw [mapFind?_mapInsert_of_ne hk] at hf
        exact hOK _ _ hf

theorem createEntriesForRecords_persist (env : Env) :
    ∀ (rs : List GuardRecord) (st : ManagerState) (r' : GuardRecord),
      RecordOK env st.entries r' →
      RecordOK env (Manager.createEntriesForRecords env rs st).1.entries r' := by
  intro rs
  induction rs with
  | nil => exact fun st r' h => h
  | cons r rs ih =>
    intro st r' h
    exact ih _ r' (createEntryIfNotExists_persist env r r' st h)

theorem createEntriesForRecords_pass1 (env : Env) (records : List GuardRecord) :
    ∀ (rs : List GuardRecord) (st : ManagerState),
      (∀ r ∈ rs, r ∈ records ∧ Manager.isValidRecord r.recordId = true) →
      (∀ k e, mapFind? k st.entries = some e → EntryOK env records e) →
      (∀ k e, mapFind? k (Manager.createEntriesForRecords env rs st).1.entries = some e →
        EntryOK env records e) ∧
      (∀ r' ∈ rs, RecordOK env (Manager.createEntriesForRecords env rs st).1.entries r') := by
  intro rs
  induction rs with
  | nil =>
    intro st _ hOK
    exact ⟨hOK, by simp⟩
  | cons r rs ih =>
    intro st hrs hOK
    have hhead := hrs r (List.mem_cons_self r rs)
    have htail : ∀ r' ∈ rs, r' ∈ records ∧ Manager.isValidRecord r'.recordId = true :=
      fun r' hr' => hrs r' (List.mem_cons_of_mem r hr')
    obtain ⟨ihOK, ihMem⟩ := ih (Manager.createEntryIfNotExists env r st).1 htail
      (createEntryIfNotExists_entryOK env records r st hhead.1 hhead.2 hOK)
    constructor
    · exact ihOK
    · intro r' hr'
      rcases List.mem_cons.mp hr' with hc | hc
      · subst hc
        exact createEntriesForRecords_persist env rs _ r'
          (createEntryIfNotExists_establish_self env r' st)
      · exact ihMem r' hc

/-! ### Idempotence machinery: the full pass -/

theorem cleanupEcoCoresGo_effects :
    ∀ (cores : List EntityPath) (st : ManagerState) (u : Bool) (eff : Effect),
      eff ∈ (Manager.cleanupEcoCoresGo cores st u).2.1 →
        eff = Effect.serializedEcoCores := by
  intro cores
  induction cores with
  | nil =>
    intro st u eff h
    simp [Manager.cleanupEcoCoresGo] at h
  | cons c cs ih =>
    intro st u eff h
    simp only [Manager.cleanupEcoCoresGo] at h
    split at h
    · exact ih st u eff h
    · simp only [Manager.updateEcoCoresList, List.mem_append,
        List.mem_singleton] at h
      rcases h with h | h
      · exact h
      · exact ih _ true eff h

theorem cleanupPersistedEcoCores_effects (st : ManagerState) :
    ∀ eff ∈ (Manager.cleanupPersistedEcoCores st).2,
      eff = Effect.serializedEcoCores := by
  intro eff h
  simp only [Manager.cleanupPersistedEcoCores] at h
  split at h
  · simp at h
    exact h
  · split at h
    · rcases List.mem_append.mp h with h | h
      · exact cleanupEcoCoresGo_effects _ _ _ eff h
      · simp at h
        exact h
    · exact cleanupEcoCoresGo_effects _ _ _ eff h

theorem handleHostIsolatedHardwares_entries_empty (env : Env) (st : ManagerState)
    (h : getAll true st.store = []) :
    (Manager.handleHostIsolatedHardwares env st).1.entries = [] := by
  simp only [Manager.handleHostIsolatedHardwares]
  split
  · rfl
  · next hcond =>
    have hent : st.entries = [] := by
      by_contra hne
      exact hcond ⟨by rw [h]; rfl, List.length_pos.mpr hne⟩
    rw [cleanupPersistedEcoCores_entries]
    have hval : (getAll true st.store).filter
        (fun r => Manager.isValidRecord r.recordId) = [] := by
      rw [h]
      rfl
    rw [hval, hent]
    simp [Manager.createEntriesForRecords, Manager.reconcileEntries]

theorem handleHostIsolatedHardwares_establish (env : Env) (st : ManagerState) :
    (∀ k e,
      mapFind? k (Manager.handleHostIsolatedHardwares env st).1.entries = some e →
        EntryOK env (getAll true st.store) e) ∧
    ∀ r' ∈ (getAll true st.store).filter
        (fun r => Manager.isValidRecord r.recordId),
      RecordOK env (Manager.handleHostIsolatedHardwares env st).1.entries r' := by
  simp only [Manager.handleHostIsolatedHardwares]
  split
  · next hcond =>
    have hrec : getAll true st.store = [] := List.length_eq_zero.mp hcond.1
    constructor
    · intro k e hf
      simp [mapFind?] at hf
    · rw [hrec]
      intro r' hr'
      simp at hr'
  · have hOK := reconcileEntries_establish env (getAll true st.store)
      (st.entries.map Prod.fst) { st with timers := st.timers - 1 }
      (fun k e hf => Or.inr (List.mem_map.mpr ⟨(k, e), mapFind?_mem hf, rfl⟩))
    obtain ⟨hOK₂, hRec⟩ := createEntriesForRecords_pass1 env (getAll true st.store)
      ((getAll true st.store).filter (fun r => Manager.isValidRecord r.recordId))
      (Manager.reconcileEntries env (getAll true st.store)
        (st.entries.map Prod.fst) { st with timers := st.timers - 1 }).1
      (fun r hr => ⟨(List.mem_filter.mp hr).1, (List.mem_filter.mp hr).2⟩)
      hOK
    constructor
    · intro k e hf
      rw [cleanupPersistedEcoCores_entries] at hf
      exact hOK₂ k e hf
    · intro r' hr'
      rw [cleanupPersistedEcoCores_entries]
      exact hRec r' hr'

theorem handleHostIsolatedHardwares_fix (env : Env) (st : ManagerState)
    (hOK : ∀ k e, mapFind? k st.entries = some e →
      EntryOK env (getAll true st.store) e)
    (hRec : ∀ r' ∈ (getAll true st.store).filter
        (fun r => Manager.isValidRecord r.recordId),
      RecordOK env st.entries r')
    (hEmpty : getAll true st.store = [] → st.entries = []) :
    (Manager.handleHostIsolatedHardwares env st).1.entries = st.entries ∧
    ∀ eff ∈ (Manager.handleHostIsolatedHardwares env st).2,
      entryMutEffect eff = false := by
  simp only [Manager.handleHostIsolatedHardwares]
  split
  · next hcond =>
    have : st.entries = [] := hEmpty (List.length_eq_zero.mp hcond.1)
    exact absurd hcond.2 (by rw [this]; simp)
  · obtain ⟨hent₁, hfx₁⟩ := reconcileEntries_fix env (getAll true st.store)
      (st.entries.map Prod.fst) { st with timers := st.timers - 1 }
      (fun k e hf => hOK k e hf)
    obtain ⟨hent₂, hfx₂⟩ := createEntriesForRecords_fix env
      ((getAll true st.store).filter (fun r => Manager.isValidRecord r.recordId))
      (Manager.reconcileEntries env (getAll true st.store)
        (st.entries.map Prod.fst) { st with timers := st.timers - 1 }).1
      (fun r hr => by rw [hent₁]; exact hRec r hr)
    constructor
    · rw [cleanupPersistedEcoCores_entries, hent₂]
      exact hent₁
    · intro eff hmem
      rcases List.mem_append.mp hmem with hm | hm
      · rcases List.mem_append.mp hm with hm' | hm'
        · exact hfx₁ eff hm'
        · exact hfx₂ eff hm'
      · have heq := cleanupPersistedEcoCores_effects _ eff hm
        subst heq
        rfl

/-! ### Sentinel-exclusion (I2) preservation -/

theorem eraseEntry_entries_subset (k : Nat) (st : ManagerState) :
    ∀ q ∈ (Manager.eraseEntry k st).1.entries, q ∈ st.entries := by
  simp only [Manager.eraseEntry]
  split
  · exact fun q hq => mem_mapErase hq
  · exact fun q hq => mem_mapErase hq

theorem resolveEntry_entries_subset (b : Bool) (k : Nat) (st : ManagerState) :
    ∀ q ∈ (Entry.resolveEntry b k st).1.entries, q ∈ st.entries := by
  simp only [Entry.resolveEntry]
  split
  · exact fun q hq => hq
  · split
    · exact fun q hq => hq
    · intro q hq
      have h1 := eraseEntry_entries_subset k
        (if b = true then { st with store := storeClear k st.store } else st) q hq
      cases b <;> simpa using h1

theorem createEntry_entries_mem (env : Env) (recordId : Nat) (resolved : Bool)
    (severity : EntrySeverity) (hw bmc : String) (del : Bool) (path : EntityPath)
    (st : ManagerState) :
    ∀ q ∈ (Manager.createEntry env recordId resolved severity hw bmc del path st).2.1.entries,
      q ∈ st.entries ∨ (q.1 = recordId ∧ q.2.recordId = recordId) := by
  simp only [Manager.createEntry]
  split
  · intro q hq
    rcases mem_mapInsert hq with h | h
    · exact Or.inl h
    · subst h
      exact Or.inr ⟨rfl, rfl⟩
  · split <;> exact fun q hq => Or.inl hq

theorem updateEntry_sentinelFree (env : Env) (recordId : Nat)
    (severity : EntrySeverity) (hw bmc : String) (path : EntityPath)
    (st : ManagerState) (h : SentinelFree st) :
    SentinelFree (Manager.updateEntry env recordId severity hw bmc path st).2.1 := by
  simp only [Manager.updateEntry]
  split
  · exact h
  · next k e heq =>
    intro q hq
    rcases mem_mapSet hq with hmem | hq2
    · exact h q hmem
    · have hke : (k, e) ∈ st.entries := List.mem_of_find?_eq_some heq
      have hke' := h (k, e) hke
      subst hq2
      refine ⟨hke'.1, ?_⟩
      show (Manager.applyEntryUpdate env severity _ e).1.recordId ≠ _
      rw [applyEntryUpdate_recordId]
      exact hke'.2

theorem updateEntryForRecord_sentinelFree (env : Env) (record : GuardRecord)
    (k : Nat) (st : ManagerState) (h : SentinelFree st) :
    SentinelFree (Manager.updateEntryForRecord env record k st).1 := by
  simp only [Manager.updateEntryForRecord]
  split
  · exact h
  · next e heq =>
    split
    · exact h
    · split
      · intro q hq
        exact h q (by simpa [updateEcoCoresList_entries] using hq)
      · split
        · intro q hq
          exact h q (by simpa [updateEcoCoresList_entries] using hq)
        · intro q hq
          rcases mem_mapSet hq with hmem | hq2
          · exact h q hmem
          · have hke : (k, e) ∈ st.entries := mapFind?_mem heq
            have hke' := h (k, e) hke
            subst hq2
            refine ⟨hke'.1, ?_⟩
            show (Manager.applyEntryUpdate env _ _ e).1.recordId ≠ _
            rw [applyEntryUpdate_recordId]
            exact hke'.2

theorem createEntryForRecord_sentinelFree (env : Env) (record : GuardRecord)
    (isRestorePath : Bool) (st : ManagerState)
    (hrec : record.recordId ≠ 0xFFFFFFFF) (h : SentinelFree st) :
    SentinelFree (Manager.createEntryForRecord env record isRestorePath st).1 := by
  simp only [Manager.createEntryForRecord]
  split
  · exact h
  · split
    · intro q hq
      exact h q (by simpa [updateEcoCoresList_entries] using hq)
    · split
      · intro q hq
        exact h q (by simpa [updateEcoCoresList_entries] using hq)
      · intro q hq
        have hmem := createEntry_entries_mem env record.recordId _ _ _ _ false
          record.targetId _ q hq
        rcases hmem with hmem | ⟨h1, h2⟩
        · exact h q (by simpa [updateEcoCoresList_entries] using hmem)
        · exact ⟨h1 ▸ hrec, h2 ▸ hrec⟩

theorem reconcileOne_sentinelFree (env : Env) (records : List GuardRecord)
    (k : Nat) (st : ManagerState) (h : SentinelFree st) :
    SentinelFree (Manager.reconcileOne env records k st).1 := by
  simp only [Manager.reconcileOne]
  split
  · exact h
  · split
    · exact fun q hq => h q (resolveEntry_entries_subset false k st q hq)
    · exact fun q hq => h q (resolveEntry_entries_subset false k st q hq)
    · exact updateEntryForRecord_sentinelFree env _ k st h
    · exact h

theorem reconcileEntries_sentinelFree (env : Env) (records : List GuardRecord) :
    ∀ (ks : List Nat) (st : ManagerState), SentinelFree st →
      SentinelFree (Manager.reconcileEntries env records ks st).1 := by
  intro ks
  induction ks with
  | nil => exact fun st h => h
  | cons k ks ih =>
    intro st h
    simp only [Manager.reconcileEntries]
    exact ih _ (reconcileOne_sentinelFree env records k st h)

theorem createEntryIfNotExists_sentinelFree (env : Env) (r : GuardRecord)
    (st : ManagerState) (hrec : r.recordId ≠ 0xFFFFFFFF) (h : SentinelFree st) :
    SentinelFree (Manager.createEntryIfNotExists env r st).1 := by
  simp only [Manager.createEntryIfNotExists]
  split
  · exact h
  · exact createEntryForRecord_sentinelFree env r false st hrec h

theorem createEntriesForRecords_sentinelFree (env : Env) :
    ∀ (rs : List GuardRecord) (st : ManagerState),
      (∀ r ∈ rs, r.recordId ≠ 0xFFFFFFFF) → SentinelFree st →
      SentinelFree (Manager.createEntriesForRecords env rs st).1 := by
  intro rs
  induction rs with
  | nil => exact fun st _ h => h
  | cons r rs ih =>
    intro st hrs h
    simp only [Manager.createEntriesForRecords]
    exact ih _ (fun r' hr' => hrs r' (List.mem_cons_of_mem r hr'))
      (createEntryIfNotExists_sentinelFree env r st (hrs r (List.mem_cons_self r rs)) h)

theorem cleanupPersistedEcoCores_sentinelFree (st : ManagerState)
    (h : SentinelFree st) :
    SentinelFree (Manager.cleanupPersistedEcoCores st).1 := by
  intro q hq
  rw [cleanupPersistedEcoCores_entries] at hq
  exact h q hq

theorem resolveAllGo_sentinelFree (b : Bool) :
    ∀ (ks : List Nat) (st : ManagerState), SentinelFree st →
      SentinelFree (Manager.resolveAllGo b ks st).1 := by
  intro ks
  induction ks with
  | nil => exact fun st h => h
  | cons k ks ih =>
    intro st h
    simp only [Manager.resolveAllGo]
    exact ih _ (fun q hq => h q (resolveEntry_entries_subset b k st q hq))

theorem filter_valid_not_sentinel (records : List GuardRecord) :
    ∀ r ∈ records.filter (fun r => Manager.isValidRecord r.recordId),
      r.recordId ≠ 0xFFFFFFFF := by
  intro r hr
  have := List.of_mem_filter hr
  simpa [Manager.isValidRecord] using this

theorem updateEcoCoresList_sentinelFree (b : Bool) (p : EntityPath)
    (st : ManagerState) (h : SentinelFree st) :
    SentinelFree (Manager.updateEcoCoresList b p st).1 := by
  intro q hq
  rw [updateEcoCoresList_entries] at hq
  exact h q hq

theorem createEntry_sentinelFree (env : Env) (recordId : Nat) (resolved : Bool)
    (severity : EntrySeverity) (hw bmc : String) (del : Bool) (path : EntityPath)
    (st : ManagerState) (hfresh : recordId ≠ 0xFFFFFFFF) (h : SentinelFree st) :
    SentinelFree
      (Manager.createEntry env recordId resolved severity hw bmc del path st).2.1 := by
  intro q hq
  rcases createEntry_entries_mem env recordId resolved severity hw bmc del path st q hq
    with hmem | ⟨h1, h2⟩
  · exact h q hmem
  · exact ⟨h1 ▸ hfresh, h2 ▸ hfresh⟩

theorem restoreGo_sentinelFree (env : Env) :
    ∀ (rs : List GuardRecord) (st : ManagerState),
      (∀ r ∈ rs, r.recordId ≠ 0xFFFFFFFF) → SentinelFree st →
      SentinelFree (Manager.restoreGo env rs st).1 := by
  intro rs
  induction rs with
  | nil => exact fun st _ h => h
  | cons r rs ih =>
    intro st hrs h
    simp only [Manager.restoreGo]
    exact ih _ (fun r' hr' => hrs r' (List.mem_cons_of_mem r hr'))
      (createEntryForRecord_sentinelFree env r true st (hrs r (List.mem_cons_self r rs)) h)

/-! ### The claims -/

/-- C2, counterexample: starting with no pending debounce timer, two
guard-file change signals leave **two** pending timers on the `_timerObjs`
queue — `processHardwareIsolationRecordFile` emplaces a new 5-second timer
unconditionally, so a signal arriving while a timer is already pending is
*not* absorbed.  This refutes "at most one debounce timer is pending at a
time". -/
theorem claim_c2_counterexample :
    (Manager.processHardwareIsolationRecordFile
      (Manager.processHardwareIsolationRecordFile stEmpty)).timers = 2 := rfl

/-- C2, amended: the debounce timers form a queue, not a single slot —
every guard-file change signal emplaces one more pending 5-second timer
(even while others are pending), and every firing of
`handleHostIsolatedHardwares` pops exactly one timer and runs a full
reconciliation pass.  Repeated signals within the delay window therefore
produce one firing *each*, not a single collapsed firing. -/
theorem claim_c2_amended (env : Env) (st : ManagerState) :
    (Manager.processHardwareIsolationRecordFile st).timers = st.timers + 1 ∧
    (Manager.handleHostIsolatedHardwares env st).1.timers = st.timers - 1 :=
  ⟨rfl, handleHostIsolatedHardwares_timers env st⟩

/-- C10: during runtime reconciliation, `createEntryIfNotExists` creates a
new entry for a valid record only when no existing entry shares the record's
entity path: any entry with that path — whatever its record id — makes the
step a complete no-op (no state change, no effects). -/
theorem claim_c10 (env : Env) (r : GuardRecord) (st : ManagerState)
    (q : Nat × Entry) (hq : q ∈ st.entries) (hpath : q.2.entityPath = r.targetId) :
    Manager.createEntryIfNotExists env r st = (st, []) := by
  have h : st.entries.any (fun p => decide (r.targetId = p.2.entityPath)) = true := by
    refine List.any_eq_true.mpr ⟨q, hq, ?_⟩
    simp [hpath]
  simp [Manager.createEntryIfNotExists, h]

/-- Witness for C10: an entry with record id 1 but the record's path `[1,2]`
suppresses creation for a valid record with record id 5. -/
theorem claim_c10_witness :
    Manager.createEntryIfNotExists envA
      { recordId := 5, targetId := [1, 2], errType := 1, elogId := 0, ephemeral := false }
      stDupPath = (stDupPath, []) :=
  claim_c10 envA _ stDupPath (1, entryA) (by simp [stDupPath]) rfl

/-- C6: every create call evaluates `isHwIsolationAllowed` before touching
the catalog or the guard store: with the isolation setting disabled, all
three creates fail `Unavailable` leaving the state untouched (for *any*
severity and environment); with the setting enabled but the chassis not
powered off, all three creates with `Manual` severity fail `NotAllowed`,
again with no guard record and no entry created.  The last conjunct
characterizes the gate itself. -/
theorem claim_c6 (env : Env) (st : ManagerState) (hw : String)
    (rawPath : EntityPath) (errLog : String) (sev : EntrySeverity) :
    (env.settingEnabled = false →
      Manager.create env hw sev st =
        (Except.error Manager.MgrError.unavailable, st, []) ∧
      Manager.createWithErrorLog env hw sev errLog st =
        (Except.error Manager.MgrError.unavailable, st, []) ∧
      Manager.createWithEntityPath env rawPath sev errLog st =
        (Except.error Manager.MgrError.unavailable, st, [])) ∧
    (env.settingEnabled = true → env.powerStateOff = false →
      Manager.create env hw EntrySeverity.manual st =
        (Except.error Manager.MgrError.notAllowed, st, []) ∧
      Manager.createWithErrorLog env hw EntrySeverity.manual errLog st =
        (Except.error Manager.MgrError.notAllowed, st, []) ∧
      Manager.createWithEntityPath env rawPath EntrySeverity.manual errLog st =
        (Except.error Manager.MgrError.notAllowed, st, [])) ∧
    (Manager.isHwIsolationAllowed env sev = none ↔
      env.settingEnabled = true ∧
        (sev = EntrySeverity.manual → env.powerStateOff = true)) := by
  refine ⟨?_, ?_, ?_⟩
  · intro hdis
    have hgate : ∀ s, Manager.isHwIsolationAllowed env s =
        some Manager.MgrError.unavailable := by
      intro s
      simp [Manager.isHwIsolationAllowed, hdis]
    refine ⟨?_, ?_, ?_⟩
    · simp [Manager.create, hgate]
    · simp [Manager.createWithErrorLog, hgate]
    · simp [Manager.createWithEntityPath, hgate]
  · intro hen hpow
    have hgate : Manager.isHwIsolationAllowed env EntrySeverity.manual =
        some Manager.MgrError.notAllowed := by
      simp [Manager.isHwIsolationAllowed, hen, hpow]
    refine ⟨?_, ?_, ?_⟩
    · simp [Manager.create, hgate]
    · simp [Manager.createWithErrorLog, hgate]
    · simp [Manager.createWithEntityPath, hgate]
  · constructor
    · intro hnone
      by_cases hen : env.settingEnabled
      · refine ⟨hen, ?_⟩
        intro hman
        by_cases hpow : env.powerStateOff
        · exact hpow
        · simp [Manager.isHwIsolationAllowed, hen, hman, hpow] at hnone
      · simp [Manager.isHwIsolationAllowed, hen] at hnone
    · rintro ⟨hen, hman⟩
      by_cases hs : sev = EntrySeverity.manual
      · simp [Manager.isHwIsolationAllowed, hen, hs, hman hs]
      · simp [Manager.isHwIsolationAllowed, hen, hs]

/-- Witness for C6: with isolation disabled, `create` on the empty fixture
fails `Unavailable`; with isolation enabled and the chassis powered on,
`create` with `Manual` severity fails `NotAllowed`; both leave the state
untouched. -/
theorem claim_c6_witness :
    Manager.create envDisabled "/inv/core0" EntrySeverity.critical stEmpty =
      (Except.error Manager.MgrError.unavailable, stEmpty, []) ∧
    Manager.create envA "/inv/core0" EntrySeverity.manual stEmpty =
      (Except.error Manager.MgrError.notAllowed, stEmpty, []) :=
  ⟨((claim_c6 envDisabled stEmpty "/inv/core0" [] ""
      EntrySeverity.critical).1 rfl).1,
   ((claim_c6 envA stEmpty "/inv/core0" [] ""
      EntrySeverity.manual).2.1 rfl rfl).1⟩

/-- C9, counterexample: with the logging service resolvable, `getEID` on an
error-log object path whose final segment (`"abc"`) is not numeric lets the
`std::invalid_argument` thrown by `std::stoi` escape — the `catch` handles
only `SdBusError` — so `getEID` throws to its caller instead of returning
`none`.  This refutes "never throws an exception to its caller". -/
theorem claim_c9_counterexample :
    Manager.getEID envA "/xyz/openbmc_project/logging/entry/abc" =
      Except.error () := rfl

/-- C9, amended: `getEID` returns `none` on any *remote* (`SdBusError`)
failure — whether the logging-service name lookup or the
`GetPELIdFromBMCLogId` call fails — but when the service name resolves and
the path's final segment does not parse as an `int`, the exception from
`std::stoi` propagates to the caller. -/
theorem claim_c9_amended (env : Env) (p : String) :
    (env.loggingService = Except.error () →
      Manager.getEID env p = Except.ok none) ∧
    (∀ (s : String) (v : Int), env.loggingService = Except.ok s →
      Manager.stoiOpt (Manager.pathFilename p) = some v →
      env.getPELIdFromBMCLogId ((v % 4294967296).toNat) = Except.error () →
      Manager.getEID env p = Except.ok none) ∧
    (∀ (s : String), env.loggingService = Except.ok s →
      Manager.stoiOpt (Manager.pathFilename p) = none →
      Manager.getEID env p = Except.error ()) := by
  refine ⟨?_, ?_, ?_⟩
  · intro hsvc
    simp [Manager.getEID, hsvc]
  · intro s v hsvc hparse hremote
    simp [Manager.getEID, hsvc, hparse, hremote]
  · intro s hsvc hparse
    simp [Manager.getEID, hsvc, hparse]

/-- Witness for C9 (amended): a numeric log path with a failing remote
`GetPELIdFromBMCLogId` call yields `none` rather than an exception. -/
theorem claim_c9_amended_witness :
    Manager.getEID envPelFails "/xyz/openbmc_project/logging/entry/5" =
      Except.ok none :=
  (claim_c9_amended envPelFails "/xyz/openbmc_project/logging/entry/5").2.1
    "svc" 5 rfl rfl rfl

/-- C8, counterexample: with the entry collection empty and the eco-core set
*already* empty, `cleanupPersistedEcoCores` still calls `serialize()`
(the empty-entries branch sets `updated = true` unconditionally), although
the set's membership did not change.  This refutes "persists (serializes)
the set only if its membership changed during the cleanup". -/
theorem claim_c8_counterexample :
    (Manager.cleanupPersistedEcoCores stEmpty).1.ecoCores = stEmpty.ecoCores ∧
    Effect.serializedEcoCores ∈ (Manager.cleanupPersistedEcoCores stEmpty).2 := by
  constructor
  · rfl
  · simp [Manager.cleanupPersistedEcoCores, stEmpty]

/-- C8, amended: eco-core cleanup removes exactly the paths no current entry
carries (clearing the whole set when the entry collection is empty), leaves
entries and the store alone, and serializes the set exactly when its
membership shrank **or** the entry collection is empty (in which case it
serializes even if the set was already empty). -/
theorem claim_c8_amended (st : ManagerState) :
    (Manager.cleanupPersistedEcoCores st).1.ecoCores =
      (if st.entries.isEmpty then []
       else st.ecoCores.filter
         (fun p => st.entries.any (fun q => decide (q.2.entityPath = p)))) ∧
    (Effect.serializedEcoCores ∈ (Manager.cleanupPersistedEcoCores st).2 ↔
      (st.entries.isEmpty = true ∨
        st.ecoCores.any
          (fun p => !(st.entries.any (fun q => decide (q.2.entityPath = p)))) = true)) ∧
    (Manager.cleanupPersistedEcoCores st).1.entries = st.entries ∧
    (Manager.cleanupPersistedEcoCores st).1.store = st.store := by
  refine ⟨?_, ?_, cleanupPersistedEcoCores_entries st, cleanupPersistedEcoCores_store st⟩
  · by_cases hE : st.entries.isEmpty
    · simp [Manager.cleanupPersistedEcoCores, hE]
    · rw [if_neg hE]
      simp only [Manager.cleanupPersistedEcoCores, if_neg hE, Bool.not_eq_true] at *
      have hgo := cleanupEcoCoresGo_ecoCores st.entries st.ecoCores st rfl false
      have hfold := foldl_setErase_filter
        (fun p => st.entries.any (fun q => decide (q.2.entityPath = p)))
        st.ecoCores st.ecoCores (fun p hp _ => hp)
      split
      · rw [hgo, hfold]
      · rw [hgo, hfold]
  · by_cases hE : st.entries.isEmpty
    · simp [Manager.cleanupPersistedEcoCores, hE]
    · have hupd := cleanupEcoCoresGo_upd st.entries st.ecoCores st rfl false
      have hmem := cleanupEcoCoresGo_serialize_mem st.entries st.ecoCores st rfl false
      rw [Bool.false_or] at hupd
      simp only [Manager.cleanupPersistedEcoCores, if_neg hE]
      simp only [Bool.not_eq_true] at hE
      simp only [hE, Bool.false_eq_true, false_or]
      split
      · next hu =>
        rw [hupd] at hu
        simp [hu]
      · next hu =>
        rw [hmem]

/-- C3: when more than one valid (non-sentinel) record in the snapshot
shares an existing entry's entity path, the per-entry diff only logs the
consistency violation: the state — in particular the entry's severity,
associations, timestamp and resolved flag — is completely unchanged, no
exception arises (the step returns normally), and the loop continues with
the remaining entries exactly as if it had started from the same state. -/
theorem claim_c3 (env : Env) (records : List GuardRecord) (k : Nat) (e : Entry)
    (ks : List Nat) (st : ManagerState)
    (hfind : mapFind? k st.entries = some e)
    (hmulti : 2 ≤ ((records.filter (fun r => decide (e.entityPath = r.targetId))).filter
        (fun r => Manager.isValidRecord r.recordId)).length) :
    Manager.reconcileOne env records k st =
      (st, [Effect.consistencyViolation e.entityPath]) ∧
    Manager.reconcileEntries env records (k :: ks) st =
      ((Manager.reconcileEntries env records ks st).1,
        Effect.consistencyViolation e.entityPath ::
          (Manager.reconcileEntries env records ks st).2) := by
  have h1 : Manager.reconcileOne env records k st =
      (st, [Effect.consistencyViolation e.entityPath]) := by
    simp only [Manager.reconcileOne, hfind]
    rcases hv : (records.filter (fun r => decide (e.entityPath = r.targetId))).filter
        (fun r => Manager.isValidRecord r.recordId) with _ | ⟨a, _ | ⟨b, t⟩⟩
    · rw [hv] at hmulti
      simp at hmulti
    · rw [hv] at hmulti
      simp at hmulti
    · rcases he : records.filter (fun r => decide (e.entityPath = r.targetId)) with _ | ⟨c, er⟩
      · rw [he] at hv
        simp at hv
      · rw [hv, he]
  refine ⟨h1, ?_⟩
  simp [Manager.reconcileEntries, h1]

/-- Witness for C3: `stDupPath` holds two valid records for `entryA`'s
entity path; the diff step leaves the state untouched and only logs. -/
theorem claim_c3_witness :
    Manager.reconcileOne envA stDupPath.store 1 stDupPath =
      (stDupPath, [Effect.consistencyViolation entryA.entityPath]) ∧
    Manager.reconcileEntries envA stDupPath.store [1] stDupPath =
      ((Manager.reconcileEntries envA stDupPath.store [] stDupPath).1,
        Effect.consistencyViolation entryA.entityPath ::
          (Manager.reconcileEntries envA stDupPath.store [] stDupPath).2) :=
  claim_c3 envA stDupPath.store 1 entryA [] stDupPath (by rfl) (by decide)

/-- C4: in each of the three create calls, when the policy gate and all
lookups pass but materializing the local `entry::Entry` fails
(`entryCtorOk` is false for the freshly allocated record id), the
`deleteRecord = true` compensation path of `createEntry` clears the
just-created durable record — the resulting store equals the pre-call store
and the entry map is unchanged — and the caller observes `InternalFailure`. -/
theorem claim_c4 (env : Env) (st : ManagerState) (hw : String)
    (rawPath physPath : EntityPath) (invPath : String) (eco : Bool)
    (errLog : String) (sev : EntrySeverity) (gt eId : Nat)
    (hgate : Manager.isHwIsolationAllowed env sev = none)
    (hphys : env.getPhysicalPath hw = some physPath)
    (hinv : env.getInventoryPath rawPath false = some (invPath, eco))
    (heid : Manager.getEID env errLog = Except.ok (some eId))
    (hgt : env.getGuardType sev = some gt)
    (hctor : env.entryCtorOk env.newRecordId = false)
    (hent : ∀ q ∈ st.entries, q.2.recordId ≠ env.newRecordId)
    (hstore : ∀ r ∈ st.store, r.recordId ≠ env.newRecordId) :
    ((Manager.create env hw sev st).1 =
        Except.error Manager.MgrError.internalFailure ∧
      (Manager.create env hw sev st).2.1.store = st.store ∧
      (Manager.create env hw sev st).2.1.entries = st.entries) ∧
    ((Manager.createWithErrorLog env hw sev errLog st).1 =
        Except.error Manager.MgrError.internalFailure ∧
      (Manager.createWithErrorLog env hw sev errLog st).2.1.store = st.store ∧
      (Manager.createWithErrorLog env hw sev errLog st).2.1.entries = st.entries) ∧
    ((Manager.createWithEntityPath env rawPath sev errLog st).1 =
        Except.error Manager.MgrError.internalFailure ∧
      (Manager.createWithEntityPath env rawPath sev errLog st).2.1.store = st.store ∧
      (Manager.createWithEntityPath env rawPath sev errLog st).2.1.entries = st.entries) := by
  have hfindP : ∀ (p : EntityPath),
      st.entries.find? (fun q =>
        decide (q.2.entityPath = p) && decide (q.2.recordId = env.newRecordId)) = none := by
    intro p
    apply List.find?_eq_none.mpr
    intro q hq
    simp only [Bool.and_eq_true, decide_eq_true_eq, not_and]
    intro _ hrec
    exact hent q hq hrec
  have hclear : ∀ (p : EntityPath) (et el : Nat),
      storeClear env.newRecordId
        (st.store ++ [{ recordId := env.newRecordId, targetId := p, errType := et,
                        elogId := el, ephemeral := false }]) = st.store := by
    intro p et el
    exact storeClear_append_fresh hstore rfl
  refine ⟨?_, ?_, ?_⟩
  · refine ⟨?_, ?_, ?_⟩ <;>
      simp [Manager.create, Manager.updateEntry, Manager.createEntry, storeCreate,
        hgate, hphys, hgt, hfindP, hctor, hclear]
  · refine ⟨?_, ?_, ?_⟩ <;>
      simp [Manager.createWithErrorLog, Manager.updateEntry, Manager.createEntry,
        storeCreate, hgate, hphys, heid, hgt, hfindP, hctor, hclear]
  · refine ⟨?_, ?_, ?_⟩ <;>
      simp [Manager.createWithEntityPath, Manager.updateEntry, Manager.createEntry,
        Manager.updateEcoCoresList, storeCreate,
        hgate, hinv, heid, hgt, hfindP, hctor, hclear]

/-- Witness for C4: on the empty fixture with `envCtorFails` (the entry
constructor throws for the allocated record id 7), `create` surfaces
`InternalFailure` and the store is rolled back to empty. -/
theorem claim_c4_witness :
    (Manager.create envCtorFails "/inv/core0" EntrySeverity.critical stEmpty).1 =
        Except.error Manager.MgrError.internalFailure ∧
      (Manager.create envCtorFails "/inv/core0" EntrySeverity.critical stEmpty).2.1.store
        = stEmpty.store ∧
      (Manager.create envCtorFails "/inv/core0" EntrySeverity.critical stEmpty).2.1.entries
        = stEmpty.entries :=
  (claim_c4 envCtorFails stEmpty "/inv/core0" [1, 2] [1, 2] "/inv/2" false
    "/xyz/openbmc_project/logging/entry/5" EntrySeverity.critical 1 5
    rfl rfl rfl rfl rfl (by decide) (by simp [stEmpty]) (by simp [stEmpty])).1

/-- C1: when the reconciliation pass fires and the enumerated non-ephemeral
snapshot is empty while entries exist, the pass resolves every unresolved
entry without clearing its (already gone) low-level record, leaves the
Guard Store contents untouched, empties the entry collection, and its whole
effect trace is `resolveTrace st.entries` — per unresolved entry one
`resolvedEntry _ false` plus the eco-core serialization of its erasure — so
no per-record update, creation, or violation step runs in the pass. -/
theorem claim_c1 (env : Env) (st : ManagerState)
    (hR : getAll true st.store = [])
    (hne : st.entries ≠ [])
    (hnd : (st.entries.map Prod.fst).Nodup) :
    (Manager.handleHostIsolatedHardwares env st).1.entries = [] ∧
    (Manager.handleHostIsolatedHardwares env st).1.store = st.store ∧
    (Manager.handleHostIsolatedHardwares env st).2 = resolveTrace st.entries ∧
    ∀ eff ∈ (Manager.handleHostIsolatedHardwares env st).2,
      (∃ k, eff = Effect.resolvedEntry k false) ∨ eff = Effect.serializedEcoCores := by
  have hcond : (getAll true st.store).length = 0 ∧ 0 < st.entries.length :=
    ⟨by rw [hR]; rfl, List.length_pos.mpr hne⟩
  have hfx : (Manager.handleHostIsolatedHardwares env st).2 = resolveTrace st.entries := by
    simp only [Manager.handleHostIsolatedHardwares, if_pos hcond]
    show (Manager.resolveAllEntries false _).2 = _
    unfold Manager.resolveAllEntries
    rw [(resolveAllGo_false_spec _ hnd _).1]
    exact keyResolveTrace_self st.entries hnd
  refine ⟨?_, ?_, hfx, ?_⟩
  · simp only [Manager.handleHostIsolatedHardwares, if_pos hcond]
  · simp only [Manager.handleHostIsolatedHardwares, if_pos hcond]
    show (Manager.resolveAllEntries false _).1.store = st.store
    rw [resolveAllEntries_false_store]
  · rw [hfx]
    exact resolveTrace_pure st.entries

/-- Witness for C1: the two-entry fixture over an empty store is fully
reset — both entries resolved without clearing, collection emptied. -/
theorem claim_c1_witness :
    (Manager.handleHostIsolatedHardwares envA stTwoEntries).1.entries = [] ∧
    (Manager.handleHostIsolatedHardwares envA stTwoEntries).1.store =
      stTwoEntries.store ∧
    (Manager.handleHostIsolatedHardwares envA stTwoEntries).2 =
      resolveTrace stTwoEntries.entries ∧
    ∀ eff ∈ (Manager.handleHostIsolatedHardwares envA stTwoEntries).2,
      (∃ k, eff = Effect.resolvedEntry k false) ∨ eff = Effect.serializedEcoCores :=
  claim_c1 envA stTwoEntries rfl (by simp [stTwoEntries]) (by simp [stTwoEntries])

/-- C5: invariant I2 is preserved by the startup restore, by the runtime
reconciliation pass, and by each of the three create calls (the latter under
the store's guarantee that a freshly created record carries a non-sentinel
id): if no map key and no entry carries `0xFFFFFFFF` before the operation,
none does afterwards — both restore and reconciliation filter records
through `isValidRecord` before any entry creation. -/
theorem claim_c5 (env : Env) (st : ManagerState) (hw : String)
    (rawPath : EntityPath) (errLog : String) (sev : EntrySeverity)
    (hfresh : env.newRecordId ≠ 0xFFFFFFFF) (h : SentinelFree st) :
    SentinelFree (Manager.restore env st).1 ∧
    SentinelFree (Manager.handleHostIsolatedHardwares env st).1 ∧
    SentinelFree (Manager.create env hw sev st).2.1 ∧
    SentinelFree (Manager.createWithErrorLog env hw sev errLog st).2.1 ∧
    SentinelFree (Manager.createWithEntityPath env rawPath sev errLog st).2.1 := by
  refine ⟨?_, ?_, ?_, ?_, ?_⟩
  · simp only [Manager.restore]
    exact cleanupPersistedEcoCores_sentinelFree _
      (restoreGo_sentinelFree env _ st (filter_valid_not_sentinel _) h)
  · simp only [Manager.handleHostIsolatedHardwares]
    split
    · intro q hq
      simp at hq
    · exact cleanupPersistedEcoCores_sentinelFree _
        (createEntriesForRecords_sentinelFree env _ _ (filter_valid_not_sentinel _)
          (reconcileEntries_sentinelFree env _ _ _ h))
  · simp only [Manager.create]
    split
    · exact h
    · split
      · exact h
      · split
        · exact h
        · split
          · exact updateEntry_sentinelFree _ _ _ _ _ _ _ h
          · split
            · exact createEntry_sentinelFree _ _ _ _ _ _ _ _ _ hfresh
                (updateEntry_sentinelFree _ _ _ _ _ _ _ h)
            · exact createEntry_sentinelFree _ _ _ _ _ _ _ _ _ hfresh
                (updateEntry_sentinelFree _ _ _ _ _ _ _ h)
  · simp only [Manager.createWithErrorLog]
    split
    · exact h
    · split
      · exact h
      · split
        · exact h
        · exact h
        · split
          · exact h
          · split
            · exact updateEntry_sentinelFree _ _ _ _ _ _ _ h
            · split
              · exact createEntry_sentinelFree _ _ _ _ _ _ _ _ _ hfresh
                  (updateEntry_sentinelFree _ _ _ _ _ _ _ h)
              · exact createEntry_sentinelFree _ _ _ _ _ _ _ _ _ hfresh
                  (updateEntry_sentinelFree _ _ _ _ _ _ _ h)
  · simp only [Manager.createWithEntityPath]
    split
    · exact h
    · split
      · exact h
      · next invPath eco heq =>
        have h0 : SentinelFree (Manager.updateEcoCoresList eco rawPath st).1 :=
          updateEcoCoresList_sentinelFree eco rawPath st h
        split
        · exact h0
        · exact h0
        · split
          · exact h0
          · split
            · exact updateEntry_sentinelFree _ _ _ _ _ _ _ h0
            · split
              · exact createEntry_sentinelFree _ _ _ _ _ _ _ _ _ hfresh
                  (updateEntry_sentinelFree _ _ _ _ _ _ _ h0)
              · exact createEntry_sentinelFree _ _ _ _ _ _ _ _ _ hfresh
                  (updateEntry_sentinelFree _ _ _ _ _ _ _ h0)

/-- Witness for C5: starting from the sentinel-free two-entry fixture, the
restore pass, the reconciliation pass, and the three creates all stay
sentinel-free. -/
theorem claim_c5_witness :
    SentinelFree (Manager.restore envA stTwoEntries).1 ∧
    SentinelFree (Manager.handleHostIsolatedHardwares envA stTwoEntries).1 ∧
    SentinelFree (Manager.create envA "/inv/core0" EntrySeverity.critical stTwoEntries).2.1 ∧
    SentinelFree (Manager.createWithErrorLog envA "/inv/core0" EntrySeverity.critical
      "/xyz/openbmc_project/logging/entry/5" stTwoEntries).2.1 ∧
    SentinelFree (Manager.createWithEntityPath envA [1, 2] EntrySeverity.critical
      "/xyz/openbmc_project/logging/entry/5" stTwoEntries).2.1 :=
  claim_c5 envA stTwoEntries "/inv/core0" [1, 2]
    "/xyz/openbmc_project/logging/entry/5" EntrySeverity.critical
    (by decide) (by intro q hq; fin_cases hq <;> simp [entryA, entryB])

/-- **C7**: the reconciliation pass is idempotent.  Running
`handleHostIsolatedHardwares` a second time immediately after a first pass,
with the Guard Store snapshot unchanged in between, mutates nothing: the
entry map and the store are exactly as the first pass left them, and the
second pass emits no entry-mutating effect — no entry is resolved
(destroyed) and no creation timestamp is refreshed (a refresh happens only
when severity or associations actually change, and the first pass already
brought every entry up to date). -/
theorem claim_c7 (env : Env) (st : ManagerState) :
    (Manager.handleHostIsolatedHardwares env
        (Manager.handleHostIsolatedHardwares env st).1).1.entries =
      (Manager.handleHostIsolatedHardwares env st).1.entries ∧
    (Manager.handleHostIsolatedHardwares env
        (Manager.handleHostIsolatedHardwares env st).1).1.store =
      (Manager.handleHostIsolatedHardwares env st).1.store ∧
    ∀ eff ∈ (Manager.handleHostIsolatedHardwares env
        (Manager.handleHostIsolatedHardwares env st).1).2,
      entryMutEffect eff = false := by
  have hstore : (Manager.handleHostIsolatedHardwares env st).1.store = st.store :=
    handleHostIsolatedHardwares_store env st
  obtain ⟨hOK, hRec⟩ := handleHostIsolatedHardwares_establish env st
  have hOK' : ∀ k e,
      mapFind? k (Manager.handleHostIsolatedHardwares env st).1.entries = some e →
      EntryOK env (getAll true (Manager.handleHostIsolatedHardwares env st).1.store) e := by
    rw [hstore]
    exact hOK
  have hRec' : ∀ r' ∈ (getAll true
        (Manager.handleHostIsolatedHardwares env st).1.store).filter
        (fun r => Manager.isValidRecord r.recordId),
      RecordOK env (Manager.handleHostIsolatedHardwares env st).1.entries r' := by
    rw [hstore]
    exact hRec
  have hEmpty' : getAll true (Manager.handleHostIsolatedHardwares env st).1.store = [] →
      (Manager.handleHostIsolatedHardwares env st).1.entries = [] := by
    rw [hstore]
    exact handleHostIsolatedHardwares_entries_empty env st
  obtain ⟨hent, hfx⟩ := handleHostIsolatedHardwares_fix env
    (Manager.handleHostIsolatedHardwares env st).1 hOK' hRec' hEmpty'
  exact ⟨hent, handleHostIsolatedHardwares_store env _, hfx⟩

end HwIsolation
